import Mathlib

/-!
Shallow embedding of the vue-router 3.6.5 core (route-table compiler, matcher,
query codec, and navigation transition engine) together with proofs of the
behavioural claims about it.

Strings are manipulated through their character lists so that every operation
is a plain computable Lean function; `String` values are unpacked with `.data`
at the boundary and repacked with the anonymous constructor.
-/

namespace VueRouter

/-! ### JavaScript string primitives

Character-level models of the JavaScript string operations the source uses:
`split`, `join`, `trim`, global replace of a fixed substring, and the
`encodeURIComponent` / `decodeURIComponent` built-ins (UTF-8 based percent
coding; `decodeURIComponent` fails on malformed input). -/

/-- JS `String.prototype.split` with a single-character separator:
`"".split(c)` is `[""]`, separators at the ends produce empty pieces. -/
def splitChar (sep : Char) : List Char → List (List Char)
  | [] => [[]]
  | c :: cs =>
    let r := splitChar sep cs
    if c = sep then [] :: r
    else
      match r with
      | [] => [[c]]
      | h :: t => (c :: h) :: t

/-- JS `Array.prototype.join` with a one-character separator. -/
def joinChar (sep : Char) : List (List Char) → List Char
  | [] => []
  | [p] => p
  | p :: ps => p ++ sep :: joinChar sep ps

/-- The whitespace class JS `trim` removes (ASCII part). -/
def jsIsSpace (c : Char) : Bool :=
  c = ' ' || c = '\t' || c = '\n' || c = '\x0d' || c = '\x0b' || c = '\x0c'

/-- JS `String.prototype.trim`. -/
def jsTrim (l : List Char) : List Char :=
  ((l.dropWhile jsIsSpace).reverse.dropWhile jsIsSpace).reverse

/-- JS `replace(commaRE, ',')`: global replacement of the fixed pattern
`%2C` by a comma (leftmost, non-overlapping). -/
def replaceCommaEsc : List Char → List Char
  | '%' :: '2' :: 'C' :: rest => ',' :: replaceCommaEsc rest
  | c :: rest => c :: replaceCommaEsc rest
  | [] => []

/-- UTF-8 bytes of one character. -/
def utf8Bytes (c : Char) : List Nat :=
  let n := c.toNat
  if n < 0x80 then [n]
  else if n < 0x800 then [0xC0 + n / 64, 0x80 + n % 64]
  else if n < 0x10000 then [0xE0 + n / 4096, 0x80 + (n / 64) % 64, 0x80 + n % 64]
  else [0xF0 + n / 262144, 0x80 + (n / 4096) % 64, 0x80 + (n / 64) % 64, 0x80 + n % 64]

/-- Upper-case hex digit. -/
def hexDigitU (n : Nat) : Char :=
  if n < 10 then Char.ofNat (48 + n) else Char.ofNat (55 + n)

/-- Lower-case hex digit (JS `Number.prototype.toString(16)`). -/
def hexDigitL (n : Nat) : Char :=
  if n < 10 then Char.ofNat (48 + n) else Char.ofNat (87 + n)

/-- `%XX` percent-escape of one byte, upper-case as `encodeURIComponent` emits. -/
def pctByte (b : Nat) : List Char :=
  ['%', hexDigitU (b / 16 % 16), hexDigitU (b % 16)]

/-- The characters `encodeURIComponent` leaves unescaped:
alphanumerics and `- _ . ! ~ * ' ( )`. -/
def uriUnreserved (c : Char) : Bool :=
  c.isAlpha || c.isDigit ||
    c = '-' || c = '_' || c = '.' || c = '!' || c = '~' || c = '*' ||
    c = '\'' || c = '(' || c = ')'

/-- Model of the JS built-in `encodeURIComponent`. -/
def encodeURIComponentM (l : List Char) : List Char :=
  l.flatMap fun c =>
    if uriUnreserved c then [c] else (utf8Bytes c).flatMap pctByte

/-- Numeric value of a hex digit character, if it is one. -/
def hexVal (c : Char) : Option Nat :=
  if '0' ≤ c ∧ c ≤ '9' then some (c.toNat - 48)
  else if 'A' ≤ c ∧ c ≤ 'F' then some (c.toNat - 55)
  else if 'a' ≤ c ∧ c ≤ 'f' then some (c.toNat - 87)
  else none

/-- First phase of `decodeURIComponent`: turn the string into the byte
sequence it denotes (`%XX` escapes become single bytes, plain characters
contribute their UTF-8 bytes); `none` on a malformed escape. -/
def pctToBytes : List Char → Option (List Nat)
  | [] => some []
  | '%' :: h1 :: h2 :: rest =>
    match hexVal h1, hexVal h2 with
    | some a, some b => (pctToBytes rest).map fun bs => (a * 16 + b) :: bs
    | _, _ => none
  | '%' :: _ :: [] => none
  | '%' :: [] => none
  | c :: rest => (pctToBytes rest).map fun bs => utf8Bytes c ++ bs

/-- Whether a byte is a UTF-8 continuation byte. -/
def isCont (b : Nat) : Bool := 0x80 ≤ b ∧ b ≤ 0xBF

/-- Second phase of `decodeURIComponent`: strict UTF-8 decoding of a byte
sequence (overlong forms, surrogates and out-of-range values rejected). -/
def utf8Decode : List Nat → Option (List Char)
  | [] => some []
  | b :: rest =>
    if b < 0x80 then
      (utf8Decode rest).map fun cs => Char.ofNat b :: cs
    else
      match rest with
      | b1 :: rest1 =>
        if 0xC2 ≤ b ∧ b ≤ 0xDF then
          if isCont b1 then
            (utf8Decode rest1).map fun cs =>
              Char.ofNat ((b - 0xC0) * 64 + (b1 - 0x80)) :: cs
          else none
        else
          match rest1 with
          | b2 :: rest2 =>
            if 0xE0 ≤ b ∧ b ≤ 0xEF then
              if isCont b1 ∧ isCont b2 then
                let cp := (b - 0xE0) * 4096 + (b1 - 0x80) * 64 + (b2 - 0x80)
                if 0x800 ≤ cp ∧ ¬(0xD800 ≤ cp ∧ cp ≤ 0xDFFF) then
                  (utf8Decode rest2).map fun cs => Char.ofNat cp :: cs
                else none
              else none
            else
              match rest2 with
              | b3 :: rest3 =>
                if 0xF0 ≤ b ∧ b ≤ 0xF4 then
                  if isCont b1 ∧ isCont b2 ∧ isCont b3 then
                    let cp := (b - 0xF0) * 262144 + (b1 - 0x80) * 4096 +
                      (b2 - 0x80) * 64 + (b3 - 0x80)
                    if 0x10000 ≤ cp ∧ cp ≤ 0x10FFFF then
                      (utf8Decode rest3).map fun cs => Char.ofNat cp :: cs
                    else none
                  else none
                else none
              | [] => none
          | [] => none
      | [] => none

/-- Model of the JS built-in `decodeURIComponent`: `none` models a thrown
`URIError`. -/
def decodeURIComponentM (l : List Char) : Option (List Char) :=
  (pctToBytes l).bind utf8Decode

/-! ### Query values and dictionaries

A JS query object maps string keys to values that are strings, `null`,
`undefined`, or arrays of such values.  JS objects preserve insertion order of
string keys, so a dictionary is an association list with distinct keys. -/

/-- A JS value as it occurs in query dictionaries. -/
inductive QVal where
  | undef
  | null
  | str (s : String)
  | arr (xs : List QVal)

/-- An insertion-ordered JS object with `QVal` values. -/
abbrev QueryDict := List (String × QVal)

/-- Key lookup in a JS object. -/
def dictGet (d : QueryDict) (k : String) : Option QVal :=
  (d.find? fun p => p.1 = k).map Prod.snd

/-- In-place update of an existing key (position preserved, as JS assignment
to an existing property). -/
def dictSet (d : QueryDict) (k : String) (v : QVal) : QueryDict :=
  d.map fun p => if p.1 = k then (p.1, v) else p

mutual

/-- JS `String(value)` on the values occurring here
(`Array.prototype.toString` joins with commas, `null`/`undefined` elements
becoming empty). -/
def jsToStringAux : QVal → List Char
  | .undef => 'u' :: "ndefined".data
  | .null => 'n' :: "ull".data
  | .str s => s.data
  | .arr xs => joinChar ',' (jsElems xs)

/-- Per-element stringification inside `Array.prototype.toString`. -/
def jsElems : List QVal → List (List Char)
  | [] => []
  | .undef :: vs => [] :: jsElems vs
  | .null :: vs => [] :: jsElems vs
  | v :: vs => jsToStringAux v :: jsElems vs

end

/-- JS `String(value)` as a `String`. -/
def jsToString (v : QVal) : String := ⟨jsToStringAux v⟩

/-! ### src/util/query.js -/

/-- `encodeReserveReplacer`: a reserved character becomes `%` followed by its
char code in lower-case hex. -/
def encodeReserveReplacer (c : Char) : List Char :=
  ['%', hexDigitL (c.toNat / 16), hexDigitL (c.toNat % 16)]

/-- The reserved class `[!'()*]` of `encodeReserveRE`. -/
def isEncodeReserve (c : Char) : Bool :=
  c = '!' || c = '\'' || c = '(' || c = ')' || c = '*'

/-- `encode`: `encodeURIComponent` hardened to escape `[!'()*]` and to keep
commas literal (the `%2C` escapes it produced are turned back into `,`). -/
def encode (s : String) : String :=
  ⟨replaceCommaEsc
    ((encodeURIComponentM s.data).flatMap fun c =>
      if isEncodeReserve c then encodeReserveReplacer c else [c])⟩

/-- `decode`: `decodeURIComponent` that returns its input unchanged when
decoding throws. -/
def decode (s : String) : String :=
  match decodeURIComponentM s.data with
  | some r => ⟨r⟩
  | none => s

/-- The update a parsed `key=value` pair performs on the accumulated query
object: a fresh key is added, an existing array value is extended, any other
existing value is promoted to a two-element array. -/
def parseQueryAdd (res : QueryDict) (key : String) (val : QVal) : QueryDict :=
  match dictGet res key with
  | none => res ++ [(key, val)]
  | some (.arr xs) => dictSet res key (.arr (xs ++ [val]))
  | some old => dictSet res key (.arr [old, val])

/-- Processing of one `&`-separated parameter of the query string:
`+` becomes space, the part before the first `=` is the decoded key, the rest
(rejoined on `=`) the decoded value, a missing `=` meaning a `null` value. -/
def parseQueryParam (res : QueryDict) (param : List Char) : QueryDict :=
  let parts := splitChar '=' (param.map fun c => if c = '+' then ' ' else c)
  match parts with
  | [] => res
  | keyRaw :: rest =>
    let key := decode ⟨keyRaw⟩
    let val : QVal :=
      if rest.length > 0 then .str (decode ⟨joinChar '=' rest⟩) else .null
    parseQueryAdd res key val

/-- `parseQuery`: trim, strip one leading `?`/`#`/`&`, split on `&` and fold
the parameters into a query object. -/
def parseQuery (query : String) : QueryDict :=
  let q :=
    match jsTrim query.data with
    | c :: cs => if c = '?' ∨ c = '#' ∨ c = '&' then cs else c :: cs
    | [] => []
  if q.isEmpty then []
  else (splitChar '&' q).foldl parseQueryParam []

/-- The string one key/value pair contributes to `stringifyQuery`
(the body of the `map` over `Object.keys`). -/
def stringifyPair (key : String) : QVal → String
  | .undef => ""
  | .null => encode key
  | .arr xs =>
    ⟨joinChar '&' (xs.filterMap fun v2 =>
      match v2 with
      | .undef => none
      | .null => some (encode key).data
      | v => some ((encode key).data ++ '=' :: (encode (jsToString v)).data))⟩
  | .str s => ⟨(encode key).data ++ '=' :: (encode s).data⟩

/-- `stringifyQuery`: serialize each key, drop empty fragments, join with `&`
and prefix a non-empty result with `?`. -/
def stringifyQuery (obj : QueryDict) : String :=
  let res :=
    joinChar '&' (((obj.map fun p => stringifyPair p.1 p.2).filter
      fun x => x.length > 0).map String.data)
  if res.isEmpty then "" else ⟨'?' :: res⟩

/-- `castQueryParamValue`: `null`/`undefined` and objects pass through,
everything else is stringified.  Values are already strings in this model, so
only the structure of the cases matters. -/
def castQueryParamValue : QVal → QVal
  | .undef => .undef
  | .null => .null
  | .arr xs => .arr xs
  | .str s => .str s

/-- The value an extra-query entry is stored with: arrays are mapped through
`castQueryParamValue`, other values pass through it directly. -/
def resolveQueryCast : QVal → QVal
  | .arr xs => .arr (xs.map castQueryParamValue)
  | v => castQueryParamValue v

/-- Assignment of one extra-query key over the parsed query object
(JS property assignment: new keys append, existing keys update in place). -/
def resolveQueryStep (acc : QueryDict) (p : String × QVal) : QueryDict :=
  match dictGet acc p.1 with
  | none => acc ++ [(p.1, resolveQueryCast p.2)]
  | some _ => dictSet acc p.1 (resolveQueryCast p.2)

/-- `resolveQuery`: parse the query string with the (possibly custom) parse
function, an exception replacing the result by the empty object, then merge
the extra query keys over it. -/
def resolveQuery (parse : String → Except Unit QueryDict) (query : String)
    (extraQuery : QueryDict) : QueryDict :=
  let parsedQuery :=
    match parse query with
    | .ok r => r
    | .error _ => []
  extraQuery.foldl resolveQueryStep parsedQuery

/-! ### src/util/errors.js

Navigation failures are `Error` objects tagged `_isRouter` with one of four
type codes; any other error value is an ordinary error. -/

/-- The four navigation-failure kinds (`NavigationFailureType`). -/
inductive NavFailType where
  | redirected
  | aborted
  | cancelled
  | duplicated
deriving DecidableEq, Repr

/-- An error value as seen by the engine: a router navigation failure or a
plain error. -/
inductive NavErr where
  | failure (t : NavFailType)
  | plain
deriving DecidableEq, Repr

/-- `isNavigationFailure`: the value is an error, carries `_isRouter`, and
(when a type is supplied) has that type. -/
def isNavigationFailure (err : Option NavErr) (errorType : Option NavFailType) : Bool :=
  match err with
  | some (.failure ft) =>
    match errorType with
    | none => true
    | some t => ft = t
  | _ => false

/-! ### Engine data model

`RouteRecord`s are compared by object identity in the transition engine
(`resolveQueue`, the duplicate check); the embedding compares them as values,
identity being realised by distinct `rid` tags.  A `Route` object additionally
carries an `oid` tag realising object identity (`START` is the object with
`oid = 0`). -/

/-- One component definition registered under a named view of a record:
whether a mounted instance exists for it, and its merged in-component guard
arrays (empty list = option absent). -/
structure CompDef where
  hasInstance : Bool
  leaveGuards : List Nat
  updateGuards : List Nat
  enterGuards : List Nat
deriving DecidableEq, Repr

/-- A compiled route record as the transition engine sees it. -/
structure EngRecord where
  rid : Nat
  components : List (String × CompDef)
  beforeEnter : Option Nat
deriving DecidableEq, Repr

/-- A resolved route snapshot as the transition engine sees it. -/
structure RouteE where
  oid : Nat
  name : Option String
  path : String
  hash : String
  query : QueryDict
  params : QueryDict
  matched : List EngRecord

/-- The `START` sentinel route (`createRoute(null, ⟨path "/"⟩)`). -/
def START : RouteE :=
  { oid := 0, name := none, path := "/", hash := "", query := [], params := [],
    matched := [] }

/-! ### src/util/route.js : isSameRoute -/

/-- Insertion step of the key sort (JS `Array.prototype.sort` on strings). -/
def insertSorted (s : String) : List String → List String
  | [] => [s]
  | t :: ts => if s ≤ t then s :: t :: ts else t :: insertSorted s ts

/-- Sorted key list of an object (`Object.keys(a).sort()`). -/
def sortKeys (l : List String) : List String := l.foldr insertSorted []

/-- Whether a JS value is `null` or `undefined` (loose `== null`). -/
def isNullish : QVal → Bool
  | .null => true
  | .undef => true
  | _ => false

mutual

/-- Value comparison inside `isObjectEqual`: nullish values compare by strict
equality, two arrays (objects) compare recursively, anything else compares by
`String(...)`. -/
def qvalLooseEq : QVal → QVal → Bool
  | .null, .null => true
  | .null, _ => false
  | .undef, .undef => true
  | .undef, _ => false
  | _, .null => false
  | _, .undef => false
  | .arr xs, .arr ys => arrsLooseEq xs ys
  | a, b => jsToString a = jsToString b

/-- Recursive comparison of two arrays viewed as index-keyed objects: equal
key sets means equal lengths, and each index compares with `qvalLooseEq`. -/
def arrsLooseEq : List QVal → List QVal → Bool
  | [], [] => true
  | x :: xs, y :: ys => qvalLooseEq x y && arrsLooseEq xs ys
  | _, _ => false

end

/-- `isObjectEqual`: sorted key lists must agree pointwise and the values at
each key must compare with `qvalLooseEq`. -/
def isObjectEqual (a b : QueryDict) : Bool :=
  let aKeys := sortKeys (a.map Prod.fst)
  let bKeys := sortKeys (b.map Prod.fst)
  if aKeys.length ≠ bKeys.length then false
  else
    (aKeys.zip bKeys).all fun kk =>
      kk.1 = kk.2 &&
        qvalLooseEq ((dictGet a kk.1).getD .undef) ((dictGet b kk.2).getD .undef)

/-- `path.replace(trailingSlashRE, '')`: drop one optional trailing slash. -/
def stripTrailingSlash (s : String) : String :=
  match s.data.getLast? with
  | some '/' => ⟨s.data.dropLast⟩
  | _ => s

/-- JS truthiness of an optional string field. -/
def optTruthy : Option String → Bool
  | some s => s ≠ ""
  | none => false

/-- `isSameRoute`: identity against `START`, then structural comparison by
path (trailing slash ignored, hash and query compared unless `onlyPath`),
then by name (hash, query and params compared unless `onlyPath`). -/
def isSameRoute (a : RouteE) (b : Option RouteE) (onlyPath : Bool) : Bool :=
  match b with
  | none => false
  | some b =>
    if b.oid = START.oid then a.oid = b.oid
    else if a.path ≠ "" ∧ b.path ≠ "" then
      stripTrailingSlash a.path = stripTrailingSlash b.path &&
        (onlyPath ||
          (a.hash = b.hash && isObjectEqual a.query b.query))
    else if optTruthy a.name ∧ optTruthy b.name then
      a.name = b.name &&
        (onlyPath ||
          (a.hash = b.hash && isObjectEqual a.query b.query &&
            isObjectEqual a.params b.params))
    else false

/-! ### src/history/base.js : resolveQueue and guard extraction -/

/-- The scan loop of `resolveQueue`: starting at `i` with `fuel` remaining
iterations (`fuel = max - i`), return the first index at which the two
matched chains hold different records (out-of-range access is `undefined`,
equal only to `undefined`). -/
def diffScan (current next : List EngRecord) : Nat → Nat → Nat
  | i, 0 => i
  | i, fuel + 1 =>
    if current.get? i ≠ next.get? i then i else diffScan current next (i + 1) fuel

/-- Result of `resolveQueue`. -/
structure RQOut where
  updated : List EngRecord
  activated : List EngRecord
  deactivated : List EngRecord
deriving DecidableEq, Repr

/-- `resolveQueue`: diff the two matched chains at the first index where
record identity differs. -/
def resolveQueue (current next : List EngRecord) : RQOut :=
  let mx := Nat.max current.length next.length
  let i := diffScan current next 0 mx
  { updated := next.take i, activated := next.drop i, deactivated := current.drop i }

/-- An observable event of one navigation: a guard invocation, the async
component resolution step, the commit, or an after-hook. -/
inductive GEvent where
  | leave (g : Nat)
  | beforeEachHook (g : Nat)
  | update (g : Nat)
  | beforeEnterCfg (rid g : Nat)
  | asyncResolve (rids : List Nat)
  | enterComp (g : Nat)
  | beforeResolveHook (g : Nat)
  | commit
  | afterEachHook (g : Nat)
deriving DecidableEq, Repr

/-- The single flatten `extractGuards` performs at the end
(`Array.prototype.concat.apply([], ...)`): array elements are spliced in,
non-array elements (`undefined` from a guard-less component) survive. -/
def flattenOnce : List (Option (List (Option GEvent))) → List (Option GEvent)
  | [] => []
  | none :: t => none :: flattenOnce t
  | some gs :: t => gs ++ flattenOnce t

/-- `extractGuards`: map over every named-view component of every record
(`flatMapComponents`), extract the merged guard array (`undefined` when the
option is absent), bind each guard, optionally reverse the per-component
element list, and flatten once. -/
def extractGuards (records : List EngRecord) (get : CompDef → List Nat)
    (bind : CompDef → Nat → Option GEvent) (rev : Bool) : List (Option GEvent) :=
  let guards : List (Option (List (Option GEvent))) :=
    records.flatMap fun m =>
      m.components.map fun c =>
        let gs := get c.2
        if gs.isEmpty then none else some (gs.map (bind c.2))
  flattenOnce (if rev then guards.reverse else guards)

/-- `bindGuard`: binding to an instance only succeeds when the component has
a mounted instance. -/
def bindGuard (mk : Nat → GEvent) (c : CompDef) (g : Nat) : Option GEvent :=
  if c.hasInstance then some (mk g) else none

/-- `extractLeaveGuards`: `beforeRouteLeave` of the deactivated records, in
reverse component order. -/
def extractLeaveGuards (deactivated : List EngRecord) : List (Option GEvent) :=
  extractGuards deactivated (fun c => c.leaveGuards) (bindGuard .leave) true

/-- `extractUpdateHooks`: `beforeRouteUpdate` of the reused records, in
forward component order. -/
def extractUpdateHooks (updated : List EngRecord) : List (Option GEvent) :=
  extractGuards updated (fun c => c.updateGuards) (bindGuard .update) false

/-- `extractEnterGuards`: `beforeRouteEnter` of the activated records; the
binding (`bindEnterGuard`) does not need an instance. -/
def extractEnterGuards (activated : List EngRecord) : List (Option GEvent) :=
  extractGuards activated (fun c => c.enterGuards) (fun _ g => some (.enterComp g)) false

/-- Global hook lists of the router instance. -/
structure RouterM where
  beforeHooks : List Nat
  resolveHooks : List Nat
  afterHooks : List Nat
deriving Repr

/-- The first guard queue of `confirmTransition`: leave guards, global
`beforeEach`, update guards, per-config `beforeEnter` of the activated
records, then the async-component resolution step. -/
def guardQueue1 (router : RouterM) (q : RQOut) : List (Option GEvent) :=
  extractLeaveGuards q.deactivated
    ++ router.beforeHooks.map (fun g => some (.beforeEachHook g))
    ++ extractUpdateHooks q.updated
    ++ q.activated.map (fun m => m.beforeEnter.map fun g => .beforeEnterCfg m.rid g)
    ++ [some (.asyncResolve (q.activated.map fun m => m.rid))]

/-- The second guard queue: in-component enter guards of the activated
records followed by the global `beforeResolve` hooks. -/
def guardQueue2 (router : RouterM) (q : RQOut) : List (Option GEvent) :=
  extractEnterGuards q.activated
    ++ router.resolveHooks.map (fun g => some (.beforeResolveHook g))

/-! ### src/util/async.js + the confirmTransition pipeline

Guards in this model always pass (they call `next()` with no value); what is
left of the iterator is the `pending !== route` check at every queue-step
boundary.  The environment is abstracted as `pendingOk k`: whether
`this.pending === route` still holds at the `k`-th check. -/

/-- Execution state of the pipeline: events so far, and how many boundary
checks have been performed. -/
structure ExecSt where
  trace : List GEvent
  boundary : Nat
deriving DecidableEq, Repr

/-- The iterator of `confirmTransition` on a passing guard: abort with a
cancelled failure if the pending route changed, otherwise run the guard and
continue. -/
def iterStep (pendingOk : Nat → Bool) (g : GEvent) (st : ExecSt) :
    Except ExecSt ExecSt :=
  if pendingOk st.boundary then
    .ok { trace := st.trace ++ [g], boundary := st.boundary + 1 }
  else .error st

/-- `runQueue`: invoke the iterator on each non-null queue entry in order;
an abort stops the recursion. -/
def runQueueM (pendingOk : Nat → Bool) :
    List (Option GEvent) → ExecSt → Except ExecSt ExecSt
  | [], st => .ok st
  | none :: rest, st => runQueueM pendingOk rest st
  | some g :: rest, st => (iterStep pendingOk g st).bind (runQueueM pendingOk rest)

/-- Outcome of one `confirmTransition` call. -/
inductive NavOutcome where
  | completed
  | failed (t : NavFailType)
deriving DecidableEq, Repr

/-- Result of one navigation: the event trace, the outcome, and the engine's
current route afterwards. -/
structure ConfirmRes where
  trace : List GEvent
  outcome : NavOutcome
  current : RouteE

/-- JS indexing with a possibly negative index (`arr[len - 1]`). -/
def jsIdx (l : List EngRecord) (i : Int) : Option EngRecord :=
  if i < 0 then none else l.get? i.toNat

/-- The duplicate-navigation check of `confirmTransition`: same route by
`isSameRoute`, same matched depth, and identical leaf record. -/
def isDuplicateNav (route current : RouteE) : Bool :=
  let lastRouteIndex : Int := (route.matched.length : Int) - 1
  let lastCurrentIndex : Int := (current.matched.length : Int) - 1
  isSameRoute route (some current) false &&
    lastRouteIndex = lastCurrentIndex &&
    jsIdx route.matched lastRouteIndex = jsIdx current.matched lastCurrentIndex

/-- `confirmTransition` together with the completion callback `transitionTo`
passes it (commit `current := route`, then the global `afterEach` hooks):
duplicate check, then the two guard queues with a final pending check, then
commit.  Guards pass; cancellation comes only from the `pendingOk`
environment. -/
def confirmTransition (router : RouterM) (current route : RouteE)
    (pendingOk : Nat → Bool) : ConfirmRes :=
  if isDuplicateNav route current then
    { trace := [], outcome := .failed .duplicated, current := current }
  else
    let q := resolveQueue current.matched route.matched
    match runQueueM pendingOk (guardQueue1 router q) { trace := [], boundary := 0 } with
    | .error st => { trace := st.trace, outcome := .failed .cancelled, current := current }
    | .ok st =>
      match runQueueM pendingOk (guardQueue2 router q) st with
      | .error st => { trace := st.trace, outcome := .failed .cancelled, current := current }
      | .ok st =>
        if pendingOk st.boundary then
          { trace := st.trace ++ [.commit]
              ++ router.afterHooks.map (fun g => GEvent.afterEachHook g),
            outcome := .completed, current := route }
        else { trace := st.trace, outcome := .failed .cancelled, current := current }

/-! ### Ready-callback bookkeeping of transitionTo -/

/-- The ready-related state of a `History` instance. -/
structure ReadySt where
  ready : Bool
  readyCbs : List Nat
  readyErrorCbs : List Nat
deriving DecidableEq, Repr

/-- How one navigation ended: committed, or aborted with an error value while
the previous route was (or was not) the `START` sentinel. -/
inductive NavEnd where
  | commit
  | abort (err : Option NavErr) (prevIsStart : Bool)

/-- A batch of ready callbacks firing. -/
inductive ReadyFire where
  | readyFired (cbs : List Nat)
  | readyErrorFired (cbs : List Nat)
deriving DecidableEq, Repr

/-- The ready bookkeeping of `transitionTo`'s completion callback: on the
first completed navigation, set `ready` and fire every `readyCbs` entry. -/
def handleComplete (st : ReadySt) : ReadySt × List ReadyFire :=
  if !st.ready then
    ({ st with ready := true }, [.readyFired st.readyCbs])
  else (st, [])

/-- The ready bookkeeping of `transitionTo`'s abort callback: a truthy error
while unready fires the ready-error callbacks unless the failure is a
redirection away from the still-initial `START` route. -/
def handleAbort (st : ReadySt) (err : Option NavErr) (prevIsStart : Bool) :
    ReadySt × List ReadyFire :=
  if err.isSome && !st.ready then
    if !isNavigationFailure err (some .redirected) || !prevIsStart then
      ({ st with ready := true }, [.readyErrorFired st.readyErrorCbs])
    else (st, [])
  else (st, [])

/-- Fold a sequence of navigation endings through the ready bookkeeping,
collecting every callback batch that fires. -/
def runNavEnds (st : ReadySt) : List NavEnd → ReadySt × List ReadyFire
  | [] => (st, [])
  | e :: es =>
    let r :=
      match e with
      | .commit => handleComplete st
      | .abort err p => handleAbort st err p
    let rest := runNavEnds r.1 es
    (rest.1, r.2 ++ rest.2)

/-- Whether a navigation ending triggers the ready transition on an unready
engine. -/
def triggersReady : NavEnd → Bool
  | .commit => true
  | .abort err p =>
    err.isSome && (!isNavigationFailure err (some .redirected) || !p)

/-! ### src/util/path.js -/

/-- Split a list at the first occurrence of `c`: the part before it, and the
part from `c` on (empty when `c` does not occur), as `indexOf`/`slice` do. -/
def breakAtChar (c : Char) : List Char → List Char × List Char
  | [] => ([], [])
  | x :: xs =>
    if x = c then ([], x :: xs)
    else
      let r := breakAtChar c xs
      (x :: r.1, r.2)

/-- Result of `parsePath`. -/
structure ParsedPath where
  path : String
  query : String
  hash : String
deriving DecidableEq, Repr

/-- `parsePath`: cut the hash off first (kept with its `#`), then the query
(without its `?`), the rest being the path. -/
def parsePath (p : String) : ParsedPath :=
  let hSplit := breakAtChar '#' p.data
  let qSplit := breakAtChar '?' hSplit.1
  { path := ⟨qSplit.1⟩
    query := ⟨match qSplit.2 with | [] => [] | _ :: t => t⟩
    hash := ⟨hSplit.2⟩ }

/-- `resolvePath`: absolute paths pass through, query/hash fragments are
appended to the base, and otherwise the relative path is resolved against the
base with a segment stack (`..` pops, `.` is skipped). -/
def resolvePath (relative base : String) (append : Bool) : String :=
  let firstChar := relative.data.head?
  if firstChar = some '/' then relative
  else if firstChar = some '?' ∨ firstChar = some '#' then base ++ relative
  else
    let stack0 := splitChar '/' base.data
    let stack1 :=
      if ¬append ∨ (stack0.getLast?.getD []).isEmpty then stack0.dropLast
      else stack0
    let relStripped :=
      match relative.data with
      | '/' :: t => t
      | l => l
    let segments := splitChar '/' relStripped
    let stack2 := segments.foldl
      (fun st seg =>
        if seg = ['.', '.'] then st.dropLast
        else if seg = ['.'] then st
        else st ++ [seg])
      stack1
    let stack3 :=
      match stack2 with
      | [] :: _ => stack2
      | l => [] :: l
    ⟨joinChar '/' stack3⟩

/-- One step of the `cleanPath` regexp `\/(?:\s*\/)+`: consume `\s*` followed
by a mandatory `/`. -/
def eatWsSlash (l : List Char) : Option (List Char) :=
  match l.dropWhile jsIsSpace with
  | '/' :: r => some r
  | _ => none

/-- Greedily consume as many `\s*\/` groups as possible. -/
def eatGroups : Nat → List Char → List Char
  | 0, l => l
  | fuel + 1, l =>
    match eatWsSlash l with
    | some r => eatGroups fuel r
    | none => l

/-- The scan of `cleanPath` with enough fuel (one unit per input position). -/
def cleanPathScan : Nat → List Char → List Char
  | _, [] => []
  | 0, l => l
  | fuel + 1, c :: rest =>
    if c = '/' then c :: cleanPathScan fuel (eatGroups (fuel + 1) rest)
    else c :: cleanPathScan fuel rest

/-- `cleanPath`: collapse runs of slashes (possibly separated by whitespace)
into a single slash. -/
def cleanPath (s : String) : String := ⟨cleanPathScan s.data.length s.data⟩

/-! ### Path patterns

The source compiles path strings with the external `path-to-regexp` library
(`compileRouteRegex`, `matchRoute`, `fillParams`).
Modelled from the spec: the library is not part of this repository, so its
behaviour is modelled at segment granularity: a path is a `/`-separated list
of segments, each either static, a named parameter `:name` (optional when
the segment ends in `?`), or the bare wildcard `*`; `regex.keys` is the
ordered list of parameter descriptors, the wildcard contributing a key with a
falsy name that matching stores under `pathMatch`. -/

/-- One compiled path segment. -/
inductive PatSeg where
  | lit (s : String)
  | param (pname : String) (optional : Bool)
  | star
deriving DecidableEq, Repr

/-- Modelled from the spec: segment-level compilation of a path pattern
(the role `path-to-regexp`'s parser plays in `compileRouteRegex`). -/
def compilePath (path : String) : List PatSeg :=
  let raw := splitChar '/' path.data
  let segs :=
    match raw with
    | [] :: t => if t.isEmpty then raw else t
    | l => l
  segs.map fun seg =>
    match seg with
    | ':' :: pname =>
      if pname.getLast? = some '?' then .param ⟨pname.dropLast⟩ true
      else .param ⟨pname⟩ false
    | ['*'] => .star
    | s => .lit ⟨s⟩

/-- The ordered key list of a compiled pattern (`regex.keys`): the parameter
name (none for the wildcard) and whether it is optional. -/
def patKeys (segs : List PatSeg) : List (Option String × Bool) :=
  segs.filterMap fun s =>
    match s with
    | .param n opt => some (some n, opt)
    | .star => some (none, false)
    | .lit _ => none

/-- Segments of a location path being matched, mirroring the pattern
segmentation. -/
def pathSegments (path : String) : List (List Char) :=
  match splitChar '/' path.data with
  | [] :: t => if t.isEmpty then [[]] else t
  | l => l

/-- Modelled from the spec: segment matching against a compiled pattern; a
successful match yields the captured value of each key in order (`none` for
an absent optional parameter).  A trailing wildcard captures the remaining
segments joined by `/`. -/
def segMatch : List PatSeg → List (List Char) → Option (List (Option (List Char)))
  | [], [] => some []
  | [], _ :: _ => none
  | .star :: ps, rest =>
    if ps.isEmpty then some [some (joinChar '/' rest)] else none
  | .lit s :: ps, seg :: rest => if s.data = seg then segMatch ps rest else none
  | .lit _ :: _, [] => none
  | .param _ _ :: ps, seg :: rest =>
    if seg.isEmpty then none else (segMatch ps rest).map fun c => some seg :: c
  | .param _ opt :: ps, [] =>
    if opt then (segMatch ps []).map fun c => none :: c else none

/-- Parameter dictionaries (JS objects with string values). -/
abbrev ParamsDict := List (String × String)

/-- Key lookup in a params object. -/
def paramGet (d : ParamsDict) (k : String) : Option String :=
  (d.find? fun p => p.1 = k).map Prod.snd

/-- JS property assignment on a params object. -/
def paramSet (d : ParamsDict) (k : String) (v : String) : ParamsDict :=
  if (d.find? fun p => p.1 = k).isSome then
    d.map fun p => if p.1 = k then (p.1, v) else p
  else d ++ [(k, v)]

/-- `extend` (src/util/misc.js) on params objects: copy every property of `b`
onto `a`. -/
def extendP (a b : ParamsDict) : ParamsDict :=
  b.foldl (fun acc p => paramSet acc p.1 p.2) a

/-- `matchRoute` (create-matcher.js): match the path against the pattern and
store each captured value under its key name (`pathMatch` for the wildcard),
decoded; the bare-wildcard pattern captures the entire path. -/
def matchRoute (segs : List PatSeg) (path : String) (params : ParamsDict) :
    Option ParamsDict :=
  let caps :=
    if segs = [.star] then some [some path.data]
    else segMatch segs (pathSegments path)
  match caps with
  | none => none
  | some cs =>
    some (((patKeys segs).zip cs).foldl
      (fun ps kc =>
        match kc.2 with
        | some v => paramSet ps (kc.1.1.getD "pathMatch") (decode ⟨v⟩)
        | none => ps)
      params)

/-- Modelled from the spec: filling a pattern's segments from a params
object; a missing required parameter aborts the fill. -/
def fillSegs : List PatSeg → ParamsDict → Option (List (List Char))
  | [], _ => some []
  | .lit s :: ps, params => (fillSegs ps params).map fun r => s.data :: r
  | .param n opt :: ps, params =>
    match paramGet params n with
    | some v => (fillSegs ps params).map fun r => v.data :: r
    | none => if opt then fillSegs ps params else none
  | .star :: ps, params =>
    match paramGet params "pathMatch" with
    | some v => (fillSegs ps params).map fun r => v.data :: r
    | none => none

/-- Modelled from the spec: `fillParams` (src/util/params.js, not under
src/): fill the record's path template with the final params to obtain a
concrete path; the catch branch turns a failed fill into `''`. -/
def fillParams (path : String) (params : ParamsDict) : String :=
  match fillSegs (compilePath path) params with
  | some parts =>
    ⟨(if path.data.head? = some '/' then ['/'] else []) ++ joinChar '/' parts⟩
  | none => ""

/-! ### Matcher records and routes -/

/-- The redirect target stored on a record: a path string, or a user redirect
function abstracted by its behaviour of throwing when invoked. -/
inductive RedirectVal where
  | rstr (s : String)
  | rthrow
deriving DecidableEq, Repr

/-- A compiled route record as the matcher sees it (recursive through the
parent back-reference). -/
inductive MRecord where
  | mk (rid : Nat) (path : String) (rname : Option String)
      (parent : Option MRecord) (matchAs : Option String)
      (redirect : Option RedirectVal)

/-- Record id (object identity tag). -/
def MRecord.rid : MRecord → Nat
  | .mk r _ _ _ _ _ => r

/-- Normalized absolute path of a record. -/
def MRecord.path : MRecord → String
  | .mk _ p _ _ _ _ => p

/-- Name of a record. -/
def MRecord.rname : MRecord → Option String
  | .mk _ _ n _ _ _ => n

/-- Parent back-reference of a record. -/
def MRecord.parent : MRecord → Option MRecord
  | .mk _ _ _ p _ _ => p

/-- Alias target path of a record. -/
def MRecord.matchAs : MRecord → Option String
  | .mk _ _ _ _ m _ => m

/-- Redirect target of a record. -/
def MRecord.redirect : MRecord → Option RedirectVal
  | .mk _ _ _ _ _ r => r

/-- A normalized `Location` object. -/
structure LocIn where
  isNormalized : Bool
  lname : Option String
  path : Option String
  hash : Option String
  query : QueryDict
  params : Option ParamsDict
  append : Bool

/-- An empty raw location object. -/
def LocIn.empty : LocIn :=
  { isNormalized := false, lname := none, path := none, hash := none,
    query := [], params := none, append := false }

/-- A raw location: a path string or a location object. -/
inductive RawLoc where
  | strL (s : String)
  | objL (l : LocIn)

/-- A resolved route snapshot as produced by the matcher. -/
structure RouteR where
  rname : Option String
  path : String
  hash : String
  query : QueryDict
  params : ParamsDict
  fullPath : String
  matched : List MRecord
  redirectedFrom : Option String

/-- Parent-chain walk underlying `formatMatch` (structural on the record). -/
def formatChain : MRecord → List MRecord
  | .mk rid path rname parent matchAs redirect =>
    (match parent with
     | none => []
     | some p => formatChain p) ++ [.mk rid path rname parent matchAs redirect]
termination_by structural m => m

/-- `formatMatch`: the matched chain from outermost ancestor to the record
itself, following parent links. -/
def formatMatch : Option MRecord → List MRecord
  | none => []
  | some m => formatChain m

/-- JS `a || b` on optional strings. -/
def jsOrOpt (a b : Option String) : Option String :=
  if optTruthy a then a else b

/-- JS `a || d` for an optional string with a string default. -/
def jsOrStr (a : Option String) (d : String) : String :=
  match a with
  | some s => if s = "" then d else s
  | none => d

/-- `getFullPath`: path (defaulted to `/`), stringified query, then hash. -/
def getFullPath (location : LocIn) : String :=
  jsOrStr location.path "/" ++ stringifyQuery location.query ++ jsOrStr location.hash ""

/-- `createRoute` as the matcher uses it (default query codec, query cloning
being the identity on pure values): the frozen route snapshot. -/
def createRouteR (record : Option MRecord) (location : LocIn)
    (redirectedFrom : Option LocIn) : RouteR :=
  { rname := jsOrOpt location.lname (record.bind fun r => r.rname)
    path := jsOrStr location.path "/"
    hash := jsOrStr location.hash ""
    query := location.query
    params := location.params.getD []
    fullPath := getFullPath location
    matched := formatMatch record
    redirectedFrom := redirectedFrom.map getFullPath }

/-! ### src/util/location.js -/

/-- The default parse function handed to `resolveQuery` (never throws). -/
def parseQueryE (s : String) : Except Unit QueryDict := .ok (parseQuery s)

/-- `normalizeLocation`: strings become path objects; already-normalized and
named locations pass through (cloned); a path-less location with params is
resolved against the current route (name kept, or the last matched record's
path template filled); otherwise the path is split, resolved against the
current path, and the query string merged with the supplied query object. -/
def normalizeLocation (raw : RawLoc) (current : Option RouteR) (append : Bool) :
    LocIn :=
  let next : LocIn :=
    match raw with
    | .strL s => { LocIn.empty with path := some s }
    | .objL l => l
  if next.isNormalized then next
  else if optTruthy next.lname then next
  else if ¬optTruthy next.path ∧ next.params.isSome ∧ current.isSome then
    match current, next.params with
    | some cur, some nparams =>
      let params := extendP (extendP [] cur.params) nparams
      if optTruthy cur.rname then
        { next with isNormalized := true, lname := cur.rname, params := some params }
      else
        match cur.matched.getLast? with
        | some rec₀ =>
          let filled := fillParams rec₀.path params
          { next with isNormalized := true, path := some filled }
        | none => { next with isNormalized := true }
    | _, _ => next
  else
    let parsedPath := parsePath (next.path.getD "")
    let basePath := jsOrStr (current.map fun c => c.path) "/"
    let path :=
      if parsedPath.path ≠ "" then
        resolvePath parsedPath.path basePath (append ∨ next.append)
      else basePath
    let query := resolveQuery parseQueryE parsedPath.query next.query
    let hash0 := jsOrStr next.hash parsedPath.hash
    let hash := if hash0 ≠ "" ∧ hash0.data.head? ≠ some '#' then "#" ++ hash0 else hash0
    { isNormalized := true, lname := none, path := some path, hash := some hash,
      query := query, params := none, append := false }

/-! ### create-matcher.js : match -/

/-- The compiled route table. -/
structure MatcherT where
  pathList : List String
  pathMap : List (String × MRecord)
  nameMap : List (String × MRecord)

/-- Lookup in a path/name map. -/
def mapGet (m : List (String × MRecord)) (k : String) : Option MRecord :=
  (m.find? fun p => p.1 = k).map Prod.snd

/-- How a `match` call can fail: a user redirect function threw, or the
fuel bounding the redirect/alias recursion ran out (a modelling artifact for
the unbounded recursion of the source). -/
inductive MatchErr where
  | thrown
  | fuelExhausted
deriving DecidableEq, Repr

/-- The ordered scan of the priority path list: the first record whose
pattern matches the path wins, the captured params being extracted. -/
def scanPaths (pathMap : List (String × MRecord)) (p : String) :
    List String → Option (MRecord × ParamsDict)
  | [] => none
  | ph :: t =>
    match mapGet pathMap ph with
    | none => scanPaths pathMap p t
    | some record =>
      match matchRoute (compilePath record.path) p [] with
      | some params => some (record, params)
      | none => scanPaths pathMap p t

/-- The named-route param-inheritance loop of `match` (create-matcher.js):
each current-route param whose key is still unset in the location's params
and is required by the target record's pattern is copied over. -/
def inheritParams (paramNames : List String) (curParams locParams0 : ParamsDict) :
    ParamsDict :=
  curParams.foldl
    (fun lp p =>
      if ¬(paramGet lp p.1).isSome ∧ paramNames.contains p.1 then
        paramSet lp p.1 p.2
      else lp)
    locParams0

/-- One pending call inside the mutual recursion of `match`, `_createRoute`,
`redirect` and `alias` (create-matcher.js). -/
inductive MatchCall where
  | callMatch (raw : RawLoc) (currentRoute : Option RouteR) (redirectedFrom : Option LocIn)
  | callCreate (record : Option MRecord) (location : LocIn) (redirectedFrom : Option LocIn)
  | callRedirect (record : MRecord) (rv : RedirectVal) (location : LocIn)
  | callAlias (location : LocIn) (matchAs : String)

/-- The mutually recursive core of the matcher, fuel-indexed so the
unbounded redirect/alias recursion of the source becomes structural; every
internal transition consumes one unit of fuel.

`callMatch`: normalize the raw location; a named location resolves through
the name map with required-param inheritance from the current route; a
path-bearing one goes through the ordered priority scan; no match yields the
null-record route.

`callCreate` (`_createRoute`): follow a redirect if the record declares one,
re-match through `matchAs` if the record is an alias shadow, else build the
route from the record.

`callRedirect` on a string target (an object target carrying only a path
behaves identically): resolve it against the record's parent path, fill the
params, re-enter matching with the triggering location as `redirectedFrom`;
a function target that throws propagates the exception.

`callAlias`: re-match the filled `matchAs` path, then continue with the
record found there and the alias's own location carrying that match's
params. -/
def matchCore (tbl : MatcherT) : Nat → MatchCall → Except MatchErr RouteR
  | 0, _ => .error .fuelExhausted
  | fuel + 1, .callMatch raw currentRoute redirectedFrom =>
    let location := normalizeLocation raw currentRoute false
    if optTruthy location.lname then
      match mapGet tbl.nameMap (location.lname.getD "") with
      | none => .ok (createRouteR none location none)
      | some record =>
        let paramNames := (patKeys (compilePath record.path)).filterMap
          fun k => if ¬k.2 then k.1 else none
        let locParams0 := location.params.getD []
        let locParams :=
          match currentRoute with
          | some cur => inheritParams paramNames cur.params locParams0
          | none => locParams0
        let path := fillParams record.path locParams
        let location := { location with params := some locParams, path := some path }
        matchCore tbl fuel (.callCreate (some record) location redirectedFrom)
    else if optTruthy location.path then
      let location := { location with params := some [] }
      match scanPaths tbl.pathMap (location.path.getD "") tbl.pathList with
      | some rp =>
        let location := { location with params := some rp.2 }
        matchCore tbl fuel (.callCreate (some rp.1) location redirectedFrom)
      | none => .ok (createRouteR none location none)
    else .ok (createRouteR none location none)
  | fuel + 1, .callCreate record location redirectedFrom =>
    match record with
    | some r =>
      match r.redirect with
      | some rv => matchCore tbl fuel (.callRedirect r rv (redirectedFrom.getD location))
      | none =>
        match r.matchAs with
        | some ma => matchCore tbl fuel (.callAlias location ma)
        | none => .ok (createRouteR record location redirectedFrom)
    | none => .ok (createRouteR none location redirectedFrom)
  | fuel + 1, .callRedirect record rv location =>
    match rv with
    | .rthrow => .error .thrown
    | .rstr s =>
      let rawPath := resolvePath s (jsOrStr (record.parent.map fun p => p.path) "/") true
      let resolvedPath := fillParams rawPath (location.params.getD [])
      let redirLoc : LocIn :=
        { LocIn.empty with isNormalized := true, path := some resolvedPath, query := location.query, hash := location.hash }
      matchCore tbl fuel (.callMatch (.objL redirLoc) none (some location))
  | fuel + 1, .callAlias location matchAs =>
    let aliasedPath := fillParams matchAs (location.params.getD [])
    (matchCore tbl fuel (.callMatch
        (.objL { LocIn.empty with isNormalized := true, path := some aliasedPath })
        none none)).bind
      fun aliasedMatch =>
        let location := { location with params := some aliasedMatch.params }
        matchCore tbl fuel (.callCreate aliasedMatch.matched.getLast? location none)

/-- The public `match` entry point (fuel-indexed). -/
def matchF (tbl : MatcherT) (fuel : Nat) (raw : RawLoc)
    (currentRoute : Option RouteR) (redirectedFrom : Option LocIn) :
    Except MatchErr RouteR :=
  matchCore tbl fuel (.callMatch raw currentRoute redirectedFrom)

/-- Every record held by the matcher's two maps. -/
def mapRecords (tbl : MatcherT) : List MRecord :=
  tbl.pathMap.map Prod.snd ++ tbl.nameMap.map Prod.snd

/-- Calls whose pending data came out of the matcher's maps: a `callCreate`
record is a map value and a `callRedirect` target is not the throwing one
(`callMatch` and `callAlias` carry no record). -/
def goodCall (tbl : MatcherT) : MatchCall → Prop
  | .callCreate rec _ _ => ∀ r, rec = some r → r ∈ mapRecords tbl
  | .callRedirect _ rv _ => rv ≠ .rthrow
  | .callMatch _ _ _ => True
  | .callAlias _ _ => True

/-! ### create-route-map.js -/

/-- A route definition as supplied by the user: path, optional name,
children, optional alias list (`none` = the `alias` key absent), optional
redirect, and the `pathToRegexpOptions.strict` flag. -/
inductive RouteConfig where
  | mk (path : String) (cname : Option String) (children : List RouteConfig)
      (calias : Option (List String)) (credirect : Option RedirectVal)
      (strict : Bool)

/-- Path of a route definition. -/
def RouteConfig.cpath : RouteConfig → String
  | .mk p _ _ _ _ _ => p

/-- Name of a route definition. -/
def RouteConfig.cname : RouteConfig → Option String
  | .mk _ n _ _ _ _ => n

/-- Children of a route definition. -/
def RouteConfig.children : RouteConfig → List RouteConfig
  | .mk _ _ c _ _ _ => c

/-- Alias list of a route definition. -/
def RouteConfig.calias : RouteConfig → Option (List String)
  | .mk _ _ _ a _ _ => a

mutual

/-- Termination measure for the compiler recursion over one definition. -/
def rankC : RouteConfig → Nat
  | .mk _ _ children calias _ _ =>
    3 + rankL children + 3 * (calias.getD []).length

/-- Termination measure for a definition list. -/
def rankL : List RouteConfig → Nat
  | [] => 0
  | c :: cs => 1 + rankC c + rankL cs

end

/-- The development-build warnings the compiler can emit. -/
inductive CompileWarn where
  | aliasEqPath (path : String)
  | dupName (dn : String)
deriving DecidableEq, Repr

/-- The mutable compilation state: the priority path list, the path and name
maps, the warnings issued so far, and the next record identity tag. -/
structure CompileSt where
  pathList : List String
  pathMap : List (String × MRecord)
  nameMap : List (String × MRecord)
  warnings : List CompileWarn
  nextRid : Nat

/-- `normalizePath`: strip one trailing slash unless strict, keep absolute
paths, and otherwise join onto the parent's normalized path and clean the
result. -/
def normalizePath (path : String) (parent : Option MRecord) (strict : Bool) :
    String :=
  let path := if ¬strict then stripTrailingSlash path else path
  if path.data.head? = some '/' then path
  else
    match parent with
    | none => path
    | some p => cleanPath (p.path ++ "/" ++ path)

mutual

/-- `addRouteRecord` (development build): normalize the path, build the
record, recurse into the children, register path and record when the path is
new, expand the aliases, and register the name (first registration wins, a
non-alias duplicate warns). -/
def addRouteRecord (st : CompileSt) (cfg : RouteConfig) (parent : Option MRecord)
    (matchAs : Option String) : CompileSt :=
  match cfg with
  | .mk path cname children calias credirect strict =>
    let normalizedPath := normalizePath path parent strict
    let record := MRecord.mk st.nextRid normalizedPath cname parent matchAs credirect
    let st1 := { st with nextRid := st.nextRid + 1 }
    let st2 := addChildren st1 children record matchAs
    let st3 :=
      if (mapGet st2.pathMap normalizedPath).isNone then
        { st2 with pathList := st2.pathList ++ [normalizedPath], pathMap := st2.pathMap ++ [(normalizedPath, record)] }
      else st2
    let st4 :=
      match calias with
      | some aliases =>
        addAliases st3 aliases path children parent
          (if normalizedPath = "" then "/" else normalizedPath)
      | none => st3
    if optTruthy cname then
      let n := cname.getD ""
      if (mapGet st4.nameMap n).isNone then
        { st4 with nameMap := st4.nameMap ++ [(n, record)] }
      else if ¬optTruthy matchAs then
        { st4 with warnings := st4.warnings ++ [.dupName n] }
      else st4
    else st4
termination_by rankC cfg
decreasing_by
all_goals simp only [rankC, rankL, Option.getD, Option.getD_none, Option.getD_some, List.length_cons, List.length_nil]
all_goals omega

/-- The children loop of `addRouteRecord`: each child is compiled under the
freshly built record, with the alias `matchAs` extended by the child path. -/
def addChildren (st : CompileSt) (children : List RouteConfig) (record : MRecord)
    (matchAs : Option String) : CompileSt :=
  match children with
  | [] => st
  | child :: rest =>
    let childMatchAs :=
      match matchAs with
      | some ma => some (cleanPath (ma ++ "/" ++ child.cpath))
      | none => none
    addChildren (addRouteRecord st child (some record) childMatchAs) rest record matchAs
termination_by rankL children
decreasing_by
all_goals simp only [rankC, rankL, Option.getD, Option.getD_none, Option.getD_some, List.length_cons, List.length_nil]
all_goals omega

/-- The alias loop of `addRouteRecord`: an alias equal to the definition's
own path is skipped with a warning; any other alias synthesizes a shadow
definition (the alias as path, the original children, nothing else) compiled
with `matchAs` pointing at the original record's path (or `/`). -/
def addAliases (st : CompileSt) (aliases : List String) (cfgPath : String)
    (children : List RouteConfig) (parent : Option MRecord) (recPath : String) :
    CompileSt :=
  match aliases with
  | [] => st
  | a :: rest =>
    if a = cfgPath then
      addAliases { st with warnings := st.warnings ++ [.aliasEqPath cfgPath] }
        rest cfgPath children parent recPath
    else
      let st' := addRouteRecord st (.mk a none children none none false) parent (some recPath)
      addAliases st' rest cfgPath children parent recPath
termination_by 3 * aliases.length + rankL children + 1
decreasing_by
all_goals simp only [rankC, rankL, Option.getD, Option.getD_none, Option.getD_some, List.length_cons, List.length_nil]
all_goals omega

end

/-- The wildcard-relocation loop at the end of `createRouteMap`: scanning
with index `i` and `fuel = l - i` remaining iterations, a `*` entry is
spliced out and pushed to the end (shrinking the scanned window), any other
entry advances the index. -/
def spliceLoop : List String → Nat → Nat → List String
  | xs, _, 0 => xs
  | xs, i, fuel + 1 =>
    match xs[i]? with
    | some x =>
      if x = "*" then spliceLoop (xs.eraseIdx i ++ [x]) i fuel
      else spliceLoop xs (i + 1) fuel
    | none => spliceLoop xs (i + 1) fuel

/-- Relocate every `*` entry of the priority list to its end. -/
def wildcardReorder (l : List String) : List String := spliceLoop l 0 l.length

/-- The empty compilation state. -/
def emptyCompileSt : CompileSt :=
  { pathList := [], pathMap := [], nameMap := [], warnings := [], nextRid := 1 }

/-- `createRouteMap`: compile each definition into the (possibly pre-existing)
table, then move wildcard paths to the end of the priority list. -/
def createRouteMap (routes : List RouteConfig) (old : CompileSt)
    (parentRoute : Option MRecord) : CompileSt :=
  let st := routes.foldl (fun acc r => addRouteRecord acc r parentRoute none) old
  { st with pathList := wildcardReorder st.pathList }

/-- The matcher table of a compilation state (`createMatcher`). -/
def matcherOf (st : CompileSt) : MatcherT :=
  { pathList := st.pathList, pathMap := st.pathMap, nameMap := st.nameMap }

/-! ### Specification-side descriptions of the guard order

These restate the claimed guard order in the spec's own terms (component
lists per phase); the theorems relate them to the engine's queues. -/

/-- All named-view component definitions of a record chain, outermost record
first, per-record view order preserved. -/
def compsOf (records : List EngRecord) : List CompDef :=
  records.flatMap fun m => m.components.map Prod.snd

/-- Leave guards in reverse (innermost-first) component order, instance-bound
only. -/
def specLeave (records : List EngRecord) : List GEvent :=
  (compsOf records).reverse.flatMap fun c =>
    if c.hasInstance then c.leaveGuards.map GEvent.leave else []

/-- Update guards in forward component order, instance-bound only. -/
def specUpdate (records : List EngRecord) : List GEvent :=
  (compsOf records).flatMap fun c =>
    if c.hasInstance then c.updateGuards.map GEvent.update else []

/-- In-component enter guards in forward component order. -/
def specEnter (records : List EngRecord) : List GEvent :=
  (compsOf records).flatMap fun c => c.enterGuards.map GEvent.enterComp

/-- Per-config `beforeEnter` guards of the activated records, outermost
first. -/
def specBeforeEnter (records : List EngRecord) : List GEvent :=
  records.filterMap fun m => m.beforeEnter.map fun g => GEvent.beforeEnterCfg m.rid g

/-- Every guard event of one navigation's two queues, in invocation order. -/
def guardEventsOf (router : RouterM) (current route : RouteE) : List GEvent :=
  let q := resolveQueue current.matched route.matched
  (guardQueue1 router q ++ guardQueue2 router q).filterMap id

/-! ## Theorems -/

/-- `dictGet` over an appended dictionary looks left first. -/
theorem dictGet_append (a b : QueryDict) (k : String) :
    dictGet (a ++ b) k = ((dictGet a k).map some).getD (dictGet b k) := by
  unfold dictGet
  rw [List.find?_append]
  cases a.find? fun p => p.1 = k <;> simp [Option.orElse]

/-- Folding the extra-query merge over keys absent from the accumulator
appends each cast entry. -/
theorem foldl_resolveQueryStep (extra : QueryDict) :
    ∀ acc : QueryDict,
    (extra.map Prod.fst).Nodup →
    (∀ k, k ∈ extra.map Prod.fst → dictGet acc k = none) →
    extra.foldl resolveQueryStep acc =
      acc ++ extra.map fun p => (p.1, resolveQueryCast p.2) := by
  induction extra with
  | nil => intro acc _ _; simp
  | cons p rest ih =>
    intro acc hnodup habs
    have hk : dictGet acc p.1 = none := habs p.1 (by simp)
    have hstep : resolveQueryStep acc p = acc ++ [(p.1, resolveQueryCast p.2)] := by
      unfold resolveQueryStep
      rw [hk]
    rw [List.map_cons] at hnodup
    have hsplit := List.nodup_cons.mp hnodup
    simp only [List.foldl_cons, hstep]
    rw [ih (acc ++ [(p.1, resolveQueryCast p.2)]) hsplit.2 ?_]
    · simp
    · intro k hkmem
      have hne : p.1 ≠ k := by
        rintro rfl
        exact hsplit.1 hkmem
      rw [dictGet_append, habs k (by simp [hkmem])]
      simp [dictGet, List.find?, hne]

/-- C10: query parsing at the public interface is total: `decode` returns the
percent-decoded string when decoding succeeds and the input unchanged when it
throws, and `resolveQuery` replaces a throwing parse by the empty object so
that only the explicitly supplied extra keys appear in the result. -/
theorem c10_query_parsing_total :
    (∀ (s : String) (r : List Char),
      decodeURIComponentM s.data = some r → decode s = ⟨r⟩) ∧
    (∀ s : String, decodeURIComponentM s.data = none → decode s = s) ∧
    (∀ (parse : String → Except Unit QueryDict) (query : String)
      (extra : QueryDict), parse query = .error () →
      (extra.map Prod.fst).Nodup →
      resolveQuery parse query extra =
        extra.map fun p => (p.1, resolveQueryCast p.2)) := by
  refine ⟨?_, ?_, ?_⟩
  · intro s r h
    unfold decode
    rw [h]
  · intro s h
    unfold decode
    rw [h]
  · intro parse query extra herr hnodup
    unfold resolveQuery
    rw [herr]
    rw [foldl_resolveQueryStep extra [] hnodup (by intro k _; rfl)]
    simp

/-- C10 witness: decoding `"%"` throws, so `decode` leaves it intact; a
throwing parse function yields exactly the supplied extra key. -/
theorem c10_query_parsing_total_witness :
    decode "%" = "%" ∧
    resolveQuery (fun _ => .error ()) "a=1" [("k", QVal.str "v")] =
      [("k", QVal.str "v")] := by
  constructor
  · exact c10_query_parsing_total.2.1 "%" (by decide)
  · exact c10_query_parsing_total.2.2 (fun _ => .error ()) "a=1"
      [("k", QVal.str "v")] rfl (by simp)

/-- C7: the query codec serializes `null` as the bare encoded key, omits
`undefined` keys, repeats the key per array element skipping `undefined`
elements, percent-encodes `! ' ( ) *` while keeping commas literal, prefixes
a non-empty result with `?`, and round-trips `"a=1&a=2&b"` through
`stringify ∘ parse` back to `a ↦ ["1","2"], b ↦ null`. -/
theorem c7_query_codec :
    (∀ k, stringifyPair k .null = encode k) ∧
    (∀ k, stringifyPair k .undef = "") ∧
    stringifyQuery [("a", QVal.str "1"), ("c", QVal.undef)] = "?a=1" ∧
    stringifyQuery [("a", QVal.arr [QVal.str "1", QVal.undef, QVal.str "2"])] =
      "?a=1&a=2" ∧
    encode "!'()*" = "%21%27%28%29%2a" ∧
    encode "a,b c" = "a,b%20c" ∧
    (∀ obj, stringifyQuery obj = "" ∨
      ∃ t, (stringifyQuery obj).data = '?' :: t) ∧
    parseQuery (stringifyQuery (parseQuery "a=1&a=2&b")) =
      [("a", QVal.arr [QVal.str "1", QVal.str "2"]), ("b", QVal.null)] := by
  refine ⟨fun k => rfl, fun k => rfl, by decide, by decide, by decide, by decide,
    ?_, rfl⟩
  intro obj
  by_cases h : (joinChar '&' (((obj.map fun p => stringifyPair p.1 p.2).filter
      fun x => x.length > 0).map String.data)).isEmpty
  · left
    simp [stringifyQuery, h]
  · right
    refine ⟨joinChar '&' (((obj.map fun p => stringifyPair p.1 p.2).filter
      fun x => x.length > 0).map String.data), ?_⟩
    simp [stringifyQuery, h]

/-- Negative JS indexing at `length - 1` is `getLast?`. -/
theorem jsIdx_last (l : List EngRecord) :
    jsIdx l ((l.length : Int) - 1) = l.getLast? := by
  unfold jsIdx
  cases l with
  | nil => simp
  | cons a t =>
    rw [if_neg (by simp only [List.length_cons]; omega)]
    have hlen : ((((a :: t).length : Int)) - 1).toNat = (a :: t).length - 1 := by
      simp only [List.length_cons]
      omega
    rw [hlen, List.get?_eq_getElem?, List.getLast?_eq_getElem?]

/-- C3: a confirmed-duplicate navigation (same route by `isSameRoute`, equal
matched depth, identical leaf record) aborts with a duplicated-type failure,
never invokes the completion callback, and leaves the engine's current route
unchanged. -/
theorem c3_duplicate_navigation (router : RouterM) (current route : RouteE)
    (pendingOk : Nat → Bool)
    (hsame : isSameRoute route (some current) false = true)
    (hlen : route.matched.length = current.matched.length)
    (hleaf : route.matched.getLast? = current.matched.getLast?) :
    (confirmTransition router current route pendingOk).outcome =
        .failed .duplicated ∧
      (confirmTransition router current route pendingOk).outcome ≠ .completed ∧
      (confirmTransition router current route pendingOk).current = current := by
  have hdup : isDuplicateNav route current = true := by
    simp only [isDuplicateNav]
    rw [hsame, jsIdx_last, jsIdx_last, hleaf, hlen]
    simp
  unfold confirmTransition
  rw [hdup]
  simp

/-- C3 witness: navigating to a structurally identical copy of the current
route is aborted as duplicated with the current route untouched. -/
theorem c3_duplicate_navigation_witness :
    (confirmTransition { beforeHooks := [1], resolveHooks := [], afterHooks := [] }
        { oid := 1, name := none, path := "/a", hash := "", query := [], params := [],
          matched := [{ rid := 7, components := [], beforeEnter := none }] }
        { oid := 2, name := none, path := "/a", hash := "", query := [], params := [],
          matched := [{ rid := 7, components := [], beforeEnter := none }] }
        (fun _ => true)).outcome = .failed .duplicated := by
  exact (c3_duplicate_navigation _ _ _ _ (by decide) (by decide) (by decide)).1

/-- C8: `runNavEnds` on an unready engine fires exactly one ready batch, at
the first triggering navigation ending: the ready callbacks on a commit, the
ready-error callbacks on a qualifying abort; once ready, nothing ever fires
again. -/
theorem c8_ready_callbacks_once (st : ReadySt) (evs : List NavEnd)
    (hunready : st.ready = false) :
    ((runNavEnds st evs).2 =
      match evs.find? triggersReady with
      | none => []
      | some .commit => [.readyFired st.readyCbs]
      | some (.abort _ _) => [.readyErrorFired st.readyErrorCbs]) ∧
    (∀ (st' : ReadySt) (evs' : List NavEnd), st'.ready = true →
      (runNavEnds st' evs').2 = []) := by
  have hready : ∀ (st' : ReadySt) (evs' : List NavEnd), st'.ready = true →
      (runNavEnds st' evs').2 = [] := by
    intro st' evs' h
    induction evs' generalizing st' with
    | nil => rfl
    | cons e es ih =>
      cases e with
      | commit =>
        simp only [runNavEnds, handleComplete, h]
        simpa using ih st' h
      | abort err p =>
        simp only [runNavEnds, handleAbort, h]
        simp only [Bool.not_true, and_false, if_false]
        simpa using ih st' h
  refine ⟨?_, hready⟩
  induction evs with
  | nil => rfl
  | cons e es ih =>
    cases e with
    | commit =>
      simp only [runNavEnds, handleComplete, hunready, Bool.not_false, if_pos]
      rw [hready { st with ready := true } es rfl]
      simp [List.find?, triggersReady]
    | abort err p =>
      cases herr : err.isSome with
      | false =>
        simp only [runNavEnds, handleAbort, hunready, herr, Bool.not_false,
          Bool.false_and, Bool.false_eq_true, if_false, List.nil_append]
        rw [ih]
        simp [List.find?, triggersReady, herr]
      | true =>
        cases hc : (!isNavigationFailure err (some .redirected) || !p) with
        | true =>
          simp only [runNavEnds, handleAbort, hunready, herr, hc, Bool.not_false,
            Bool.true_and, if_true]
          rw [hready { st with ready := true } es rfl]
          simp [List.find?, triggersReady, herr, hc]
        | false =>
          simp only [runNavEnds, handleAbort, hunready, herr, hc, Bool.not_false,
            Bool.true_and, Bool.false_eq_true, if_true, if_false, List.nil_append]
          rw [ih]
          simp [List.find?, triggersReady, herr, hc]

/-- A queue whose pending checks all pass runs every non-null guard in order
and advances the boundary accordingly. -/
theorem runQueueM_ok (pendingOk : Nat → Bool) :
    ∀ (queue : List (Option GEvent)) (st : ExecSt),
    (∀ j, j < (queue.filterMap id).length → pendingOk (st.boundary + j) = true) →
    runQueueM pendingOk queue st =
      .ok { trace := st.trace ++ queue.filterMap id,
            boundary := st.boundary + (queue.filterMap id).length } := by
  intro queue
  induction queue with
  | nil => intro st _; simp [runQueueM]
  | cons e rest ih =>
    intro st h
    cases e with
    | none =>
      simp only [runQueueM]
      rw [ih st (by simpa using h)]
      simp
    | some g =>
      have h0 : pendingOk st.boundary = true := by
        have := h 0 (by simp)
        simpa using this
      simp only [runQueueM, iterStep, h0, if_pos, Except.bind]
      have hside : ∀ j, j < (rest.filterMap id).length →
          pendingOk ((⟨st.trace ++ [g], st.boundary + 1⟩ : ExecSt).boundary + j) = true := by
        intro j hj
        have hlt : j + 1 < ((some g :: rest).filterMap id).length := by
          simp only [List.filterMap_cons]
          simpa using Nat.succ_lt_succ hj
        have := h (j + 1) hlt
        have harith : st.boundary + 1 + j = st.boundary + (j + 1) := by omega
        simpa [harith] using this
      rw [ih ⟨st.trace ++ [g], st.boundary + 1⟩ hside]
      refine congrArg Except.ok ?_
      rw [ExecSt.mk.injEq]
      constructor
      · simp
      · simp only [List.filterMap_cons, id_eq, List.length_cons]
        omega

/-- A queue whose `j`-th pending check fails (all earlier ones passing)
aborts there: exactly the first `j` non-null guards ran. -/
theorem runQueueM_cancel (pendingOk : Nat → Bool) :
    ∀ (queue : List (Option GEvent)) (st : ExecSt) (j : Nat),
    j < (queue.filterMap id).length →
    (∀ i, i < j → pendingOk (st.boundary + i) = true) →
    pendingOk (st.boundary + j) = false →
    runQueueM pendingOk queue st =
      .error { trace := st.trace ++ (queue.filterMap id).take j,
               boundary := st.boundary + j } := by
  intro queue
  induction queue with
  | nil => intro st j hj _ _; simp at hj
  | cons e rest ih =>
    intro st j hj hpre hj0
    cases e with
    | none =>
      simp only [runQueueM]
      have := ih st j (by simpa using hj) hpre hj0
      rw [this]
      simp
    | some g =>
      cases j with
      | zero =>
        have h0 : pendingOk st.boundary = false := by simpa using hj0
        simp only [runQueueM, iterStep, h0, Bool.false_eq_true, if_false,
          Except.bind]
        simp
      | succ j' =>
        have h0 : pendingOk st.boundary = true := by
          have := hpre 0 (by omega)
          simpa using this
        simp only [runQueueM, iterStep, h0, if_pos, Except.bind]
        have hj' : j' < (rest.filterMap id).length := by
          simp only [List.filterMap_cons, id_eq, List.length_cons] at hj
          omega
        have hpre' : ∀ i, i < j' →
            pendingOk ((⟨st.trace ++ [g], st.boundary + 1⟩ : ExecSt).boundary + i) = true := by
          intro i hi
          have := hpre (i + 1) (by omega)
          have harith : st.boundary + 1 + i = st.boundary + (i + 1) := by omega
          simpa [harith] using this
        have hj0' : pendingOk ((⟨st.trace ++ [g], st.boundary + 1⟩ : ExecSt).boundary + j') = false := by
          have harith : st.boundary + 1 + j' = st.boundary + (j' + 1) := by omega
          simpa [harith] using hj0
        rw [ih ⟨st.trace ++ [g], st.boundary + 1⟩ j' hj' hpre' hj0']
        refine congrArg Except.error ?_
        rw [ExecSt.mk.injEq]
        constructor
        · simp
        · show st.boundary + 1 + j' = st.boundary + (j' + 1)
          omega

/-- `filterMap id` through the one-level flatten of guard extraction. -/
theorem filterMap_flattenOnce (l : List (Option (List (Option GEvent)))) :
    (flattenOnce l).filterMap id =
      l.flatMap fun e => (e.getD []).filterMap id := by
  induction l with
  | nil => rfl
  | cons e t ih =>
    cases e with
    | none => simp [flattenOnce, ih]
    | some gs => simp [flattenOnce, ih]

/-- The per-component element list of `extractGuards` is the map of the
extraction body over the flattened component list. -/
theorem flatMap_components (records : List EngRecord)
    (f : CompDef → Option (List (Option GEvent))) :
    (records.flatMap fun m => m.components.map fun c => f c.2) =
      (compsOf records).map f := by
  unfold compsOf
  induction records with
  | nil => rfl
  | cons m rest ih => simp [ih, List.map_map, Function.comp_def]

/-- The guards `extractGuards` actually queues, per phase: the flattened
component list (reversed when requested), each component contributing its
bound guards. -/
theorem filterMap_extractGuards (records : List EngRecord)
    (get : CompDef → List Nat) (bind : CompDef → Nat → Option GEvent)
    (rev : Bool) :
    (extractGuards records get bind rev).filterMap id =
      (if rev then (compsOf records).reverse else compsOf records).flatMap
        fun c => (get c).filterMap (bind c) := by
  unfold extractGuards
  rw [flatMap_components records fun c =>
    if (get c).isEmpty then none else some ((get c).map (bind c))]
  have helem : ∀ c : CompDef,
      (((if (get c).isEmpty then none
          else some ((get c).map (bind c))).getD []).filterMap id) =
        (get c).filterMap (bind c) := by
    intro c
    by_cases he : (get c).isEmpty
    · rw [if_pos he]
      rw [List.isEmpty_iff.mp he]
      rfl
    · rw [if_neg he]
      simp [List.filterMap_map]
  cases rev with
  | false =>
    simp only [Bool.false_eq_true, if_false]
    rw [filterMap_flattenOnce]
    induction compsOf records with
    | nil => rfl
    | cons c t ih =>
      simp only [List.map_cons, List.flatMap_cons, ih]
      rw [helem c]
  | true =>
    simp only [if_pos]
    rw [← List.map_reverse, filterMap_flattenOnce]
    induction (compsOf records).reverse with
    | nil => rfl
    | cons c t ih =>
      simp only [List.map_cons, List.flatMap_cons, ih]
      rw [helem c]

/-- `filterMap` with a total function is `map`. -/
theorem filterMap_some_fn (f : Nat → GEvent) (l : List Nat) :
    l.filterMap (fun g => some (f g)) = l.map f := by
  induction l with
  | nil => rfl
  | cons a t ih => simp [List.filterMap_cons, ih]

/-- Binding to an instance keeps the guard list of mounted components and
drops unmounted ones. -/
theorem filterMap_bindGuard (mk : Nat → GEvent) (c : CompDef) (gs : List Nat) :
    gs.filterMap (bindGuard mk c) = if c.hasInstance then gs.map mk else [] := by
  cases h : c.hasInstance with
  | true =>
    have hb : bindGuard mk c = fun g => some (mk g) := by
      funext g
      simp [bindGuard, h]
    rw [hb, filterMap_some_fn]
    simp [h]
  | false => simp [bindGuard, h]

/-- The events of the first guard queue, phase by phase. -/
theorem filterMap_guardQueue1 (router : RouterM) (q : RQOut) :
    (guardQueue1 router q).filterMap id =
      specLeave q.deactivated ++ router.beforeHooks.map GEvent.beforeEachHook ++
      specUpdate q.updated ++ specBeforeEnter q.activated ++
      [GEvent.asyncResolve (q.activated.map fun m => m.rid)] := by
  unfold guardQueue1 specLeave specUpdate specBeforeEnter extractLeaveGuards
    extractUpdateHooks
  simp only [List.filterMap_append]
  rw [filterMap_extractGuards, filterMap_extractGuards]
  simp [filterMap_bindGuard, List.filterMap_map, Function.comp_def,
    filterMap_some_fn]

/-- The events of the second guard queue. -/
theorem filterMap_guardQueue2 (router : RouterM) (q : RQOut) :
    (guardQueue2 router q).filterMap id =
      specEnter q.activated ++ router.resolveHooks.map GEvent.beforeResolveHook := by
  unfold guardQueue2 specEnter extractEnterGuards
  simp only [List.filterMap_append]
  rw [filterMap_extractGuards]
  simp [List.filterMap_map, Function.comp_def, filterMap_some_fn]

/-- The scan loop of `resolveQueue` stops at the first index where the two
chains differ: everything strictly before its result agrees, and the result
itself (when within the scanned range) is a disagreement. -/
theorem diffScan_spec (c n : List EngRecord) :
    ∀ (fuel i : Nat),
      (∀ j, i ≤ j → j < diffScan c n i fuel → c.get? j = n.get? j) ∧
      (diffScan c n i fuel < i + fuel →
        c.get? (diffScan c n i fuel) ≠ n.get? (diffScan c n i fuel)) ∧
      i ≤ diffScan c n i fuel := by
  intro fuel
  induction fuel with
  | zero =>
    intro i
    refine ⟨?_, ?_, Nat.le_refl _⟩
    · intro j h1 h2
      simp only [diffScan] at h2
      omega
    · intro h
      simp only [diffScan] at h
      omega
  | succ fuel ih =>
    intro i
    by_cases hne : c.get? i ≠ n.get? i
    · have hd : diffScan c n i (fuel + 1) = i := by
        simp only [diffScan, if_pos hne]
      refine ⟨?_, ?_, by omega⟩
      · intro j h1 h2
        rw [hd] at h2
        omega
      · intro _
        rw [hd]
        exact hne
    · have heq : c.get? i = n.get? i := not_ne_iff.mp hne
      have hd : diffScan c n i (fuel + 1) = diffScan c n (i + 1) fuel := by
        simp only [diffScan, if_neg hne]
      obtain ⟨ha, hb, hc⟩ := ih (i + 1)
      rw [hd]
      refine ⟨?_, ?_, by omega⟩
      · intro j h1 h2
        by_cases hji : j = i
        · rw [hji]
          exact heq
        · exact ha j (by omega) h2
      · intro h
        exact hb (by omega)

/-- C1: a confirmed (non-duplicate, never superseded) transition runs its
observable events in exactly the claimed order: deactivated leave guards
innermost-first, global `beforeEach` hooks, reused update guards, activated
per-config `beforeEnter` guards, one async-resolution step, then activated
in-component enter guards, global `beforeResolve` hooks, and only then the
commit followed by the `afterEach` hooks — with the three record classes
given by the first index at which the matched chains differ. -/
theorem c1_guard_order (router : RouterM) (current route : RouteE)
    (pendingOk : Nat → Bool) (i : Nat)
    (hdup : isDuplicateNav route current = false)
    (hpend : ∀ k, pendingOk k = true)
    (hi : i = diffScan current.matched route.matched 0
      (Nat.max current.matched.length route.matched.length)) :
    (confirmTransition router current route pendingOk).outcome = .completed ∧
    (confirmTransition router current route pendingOk).trace =
      specLeave (current.matched.drop i) ++
      router.beforeHooks.map GEvent.beforeEachHook ++
      specUpdate (route.matched.take i) ++
      specBeforeEnter (route.matched.drop i) ++
      [GEvent.asyncResolve ((route.matched.drop i).map fun m => m.rid)] ++
      specEnter (route.matched.drop i) ++
      router.resolveHooks.map GEvent.beforeResolveHook ++
      [GEvent.commit] ++
      router.afterHooks.map (fun g => GEvent.afterEachHook g) ∧
    (∀ j, j < i → current.matched.get? j = route.matched.get? j) ∧
    (i < Nat.max current.matched.length route.matched.length →
      current.matched.get? i ≠ route.matched.get? i) := by
  have hq : resolveQueue current.matched route.matched =
      { updated := route.matched.take i, activated := route.matched.drop i,
        deactivated := current.matched.drop i } := by
    rw [hi]
    rfl
  have hrun : confirmTransition router current route pendingOk =
      { trace :=
          ((guardQueue1 router (resolveQueue current.matched route.matched)).filterMap id ++
            (guardQueue2 router (resolveQueue current.matched route.matched)).filterMap id) ++
          [GEvent.commit] ++ router.afterHooks.map (fun g => GEvent.afterEachHook g),
        outcome := .completed, current := route } := by
    simp only [confirmTransition, hdup, Bool.false_eq_true, if_false]
    rw [runQueueM_ok pendingOk _ ⟨[], 0⟩ (fun j _ => hpend _)]
    simp only []
    rw [runQueueM_ok pendingOk _ _ (fun j _ => hpend _)]
    simp only []
    rw [if_pos (by rw [hpend])]
    simp
  obtain ⟨ha, hb, _⟩ := diffScan_spec current.matched route.matched
    (Nat.max current.matched.length route.matched.length) 0
  refine ⟨by rw [hrun], ?_, ?_, ?_⟩
  · rw [hrun]
    show _ ++ [GEvent.commit] ++ _ = _
    rw [hq, filterMap_guardQueue1, filterMap_guardQueue2]
    simp [List.append_assoc]
  · intro j hj
    exact ha j (by omega) (by rw [← hi]; omega)
  · intro hlt
    have := hb (by rw [← hi]; omega)
    rw [← hi] at this
    exact this

/-- C1 witness: the spec's guard-ordering scenario (parent `P` reused with an
update guard, child `C1` deactivated with a leave guard, child `C2` activated
with a config guard and an enter guard, one hook of each global kind)
produces exactly the claimed event order. -/
theorem c1_guard_order_witness :
    (confirmTransition
        { beforeHooks := [50], resolveHooks := [60], afterHooks := [70] }
        { oid := 1, name := none, path := "/a/b", hash := "", query := [],
          params := [],
          matched := [
            { rid := 1, components := [("default",
                { hasInstance := true, leaveGuards := [], updateGuards := [10],
                  enterGuards := [] })], beforeEnter := none },
            { rid := 2, components := [("default",
                { hasInstance := true, leaveGuards := [20], updateGuards := [],
                  enterGuards := [] })], beforeEnter := none }] }
        { oid := 2, name := none, path := "/a/c", hash := "", query := [],
          params := [],
          matched := [
            { rid := 1, components := [("default",
                { hasInstance := true, leaveGuards := [], updateGuards := [10],
                  enterGuards := [] })], beforeEnter := none },
            { rid := 3, components := [("default",
                { hasInstance := false, leaveGuards := [], updateGuards := [],
                  enterGuards := [30] })], beforeEnter := some 40 }] }
        (fun _ => true)).trace =
      [.leave 20, .beforeEachHook 50, .update 10, .beforeEnterCfg 3 40,
        .asyncResolve [3], .enterComp 30, .beforeResolveHook 60, .commit,
        .afterEachHook 70] := by
  rw [(c1_guard_order _ _ _ (fun _ => true) 1 (by decide) (fun _ => rfl)
    (by decide)).2.1]
  decide

/-- C2: when the pending route stops matching this navigation at boundary
check `k₀` (all earlier checks passing), the pipeline aborts with a
cancelled-type failure, exactly the first `k₀` guards have run — that guard
and every later guard of the pipeline is never invoked — the navigation is
not committed, and the current route is untouched. -/
theorem c2_cancelled_at_boundary (router : RouterM) (current route : RouteE)
    (pendingOk : Nat → Bool) (k₀ : Nat)
    (hdup : isDuplicateNav route current = false)
    (hpre : ∀ k, k < k₀ → pendingOk k = true)
    (hk : pendingOk k₀ = false)
    (hle : k₀ ≤ (guardEventsOf router current route).length) :
    (confirmTransition router current route pendingOk).outcome =
        .failed .cancelled ∧
      (confirmTransition router current route pendingOk).trace =
        (guardEventsOf router current route).take k₀ ∧
      (confirmTransition router current route pendingOk).current = current := by
  have hsplit : guardEventsOf router current route =
      (guardQueue1 router (resolveQueue current.matched route.matched)).filterMap id ++
        (guardQueue2 router (resolveQueue current.matched route.matched)).filterMap id := by
    unfold guardEventsOf
    rw [List.filterMap_append]
  have hlen : (guardEventsOf router current route).length =
      ((guardQueue1 router (resolveQueue current.matched route.matched)).filterMap id).length +
        ((guardQueue2 router (resolveQueue current.matched route.matched)).filterMap id).length := by
    rw [hsplit, List.length_append]
  rcases Nat.lt_or_ge k₀
    ((guardQueue1 router (resolveQueue current.matched route.matched)).filterMap id).length
    with hcase | hcase
  · have hres : confirmTransition router current route pendingOk =
        { trace := ((guardQueue1 router (resolveQueue current.matched route.matched)).filterMap id).take k₀,
          outcome := .failed .cancelled, current := current } := by
      simp only [confirmTransition, hdup, Bool.false_eq_true, if_false]
      rw [runQueueM_cancel pendingOk _ ⟨[], 0⟩ k₀ hcase
        (fun i hi => by simpa using hpre i hi) (by simpa using hk)]
      simp
    rw [hres]
    refine ⟨rfl, ?_, rfl⟩
    rw [hsplit, List.take_append_of_le_length (by omega)]
  · rcases Nat.lt_or_ge k₀ (((guardQueue1 router (resolveQueue current.matched route.matched)).filterMap id).length +
        ((guardQueue2 router (resolveQueue current.matched route.matched)).filterMap id).length)
      with hcase2 | hcase2
    · have hres : confirmTransition router current route pendingOk =
          { trace := (guardQueue1 router (resolveQueue current.matched route.matched)).filterMap id ++
              ((guardQueue2 router (resolveQueue current.matched route.matched)).filterMap id).take
                (k₀ - ((guardQueue1 router (resolveQueue current.matched route.matched)).filterMap id).length),
            outcome := .failed .cancelled, current := current } := by
        simp only [confirmTransition, hdup, Bool.false_eq_true, if_false]
        rw [runQueueM_ok pendingOk _ ⟨[], 0⟩ (fun j hj => by simpa using hpre j (by omega))]
        simp only []
        rw [runQueueM_cancel pendingOk _ _
          (k₀ - ((guardQueue1 router (resolveQueue current.matched route.matched)).filterMap id).length)
          (by omega)
          (fun i hi => by
            have harith : (0 + ((guardQueue1 router (resolveQueue current.matched route.matched)).filterMap id).length) + i =
                ((guardQueue1 router (resolveQueue current.matched route.matched)).filterMap id).length + i := by omega
            rw [harith]
            exact hpre _ (by omega))
          (by
            have harith : (0 + ((guardQueue1 router (resolveQueue current.matched route.matched)).filterMap id).length) +
                (k₀ - ((guardQueue1 router (resolveQueue current.matched route.matched)).filterMap id).length) = k₀ := by
              omega
            rw [harith]
            exact hk)]
        simp
      rw [hres]
      refine ⟨rfl, ?_, rfl⟩
      rw [hsplit, List.take_append_eq_append_take, List.take_of_length_le hcase]
    · have hk0 : k₀ = ((guardQueue1 router (resolveQueue current.matched route.matched)).filterMap id).length +
          ((guardQueue2 router (resolveQueue current.matched route.matched)).filterMap id).length := by
        omega
      have hres : confirmTransition router current route pendingOk =
          { trace := (guardQueue1 router (resolveQueue current.matched route.matched)).filterMap id ++
              (guardQueue2 router (resolveQueue current.matched route.matched)).filterMap id,
            outcome := .failed .cancelled, current := current } := by
        simp only [confirmTransition, hdup, Bool.false_eq_true, if_false]
        rw [runQueueM_ok pendingOk _ ⟨[], 0⟩ (fun j hj => by simpa using hpre j (by omega))]
        simp only []
        rw [runQueueM_ok pendingOk _ _
          (fun j hj => by
            have harith : (0 + ((guardQueue1 router (resolveQueue current.matched route.matched)).filterMap id).length) + j =
                ((guardQueue1 router (resolveQueue current.matched route.matched)).filterMap id).length + j := by omega
            rw [harith]
            exact hpre _ (by omega))]
        simp only []
        rw [if_neg ?_]
        · simp
        · have harith : (0 + ((guardQueue1 router (resolveQueue current.matched route.matched)).filterMap id).length) +
              ((guardQueue2 router (resolveQueue current.matched route.matched)).filterMap id).length = k₀ := by
            omega
          simp only [harith]
          simp [hk]
      rw [hres]
      refine ⟨rfl, ?_, rfl⟩
      have hfull : ((guardQueue1 router (resolveQueue current.matched route.matched)).filterMap id ++
          (guardQueue2 router (resolveQueue current.matched route.matched)).filterMap id).length ≤ k₀ := by
        rw [List.length_append]
        omega
      rw [hsplit, List.take_of_length_le hfull]


/-- C2 witness: in the C1 scenario with the pending route superseded after
two boundary checks, the navigation cancels having run only the first two
guards. -/
theorem c2_cancelled_at_boundary_witness :
    (confirmTransition
        { beforeHooks := [50], resolveHooks := [60], afterHooks := [70] }
        { oid := 1, name := none, path := "/a/b", hash := "", query := [],
          params := [],
          matched := [
            { rid := 1, components := [("default",
                { hasInstance := true, leaveGuards := [], updateGuards := [10],
                  enterGuards := [] })], beforeEnter := none },
            { rid := 2, components := [("default",
                { hasInstance := true, leaveGuards := [20], updateGuards := [],
                  enterGuards := [] })], beforeEnter := none }] }
        { oid := 2, name := none, path := "/a/c", hash := "", query := [],
          params := [],
          matched := [
            { rid := 1, components := [("default",
                { hasInstance := true, leaveGuards := [], updateGuards := [10],
                  enterGuards := [] })], beforeEnter := none },
            { rid := 3, components := [("default",
                { hasInstance := false, leaveGuards := [], updateGuards := [],
                  enterGuards := [30] })], beforeEnter := some 40 }] }
        (fun k => k < 2)).outcome = .failed .cancelled ∧
    (confirmTransition
        { beforeHooks := [50], resolveHooks := [60], afterHooks := [70] }
        { oid := 1, name := none, path := "/a/b", hash := "", query := [],
          params := [],
          matched := [
            { rid := 1, components := [("default",
                { hasInstance := true, leaveGuards := [], updateGuards := [10],
                  enterGuards := [] })], beforeEnter := none },
            { rid := 2, components := [("default",
                { hasInstance := true, leaveGuards := [20], updateGuards := [],
                  enterGuards := [] })], beforeEnter := none }] }
        { oid := 2, name := none, path := "/a/c", hash := "", query := [],
          params := [],
          matched := [
            { rid := 1, components := [("default",
                { hasInstance := true, leaveGuards := [], updateGuards := [10],
                  enterGuards := [] })], beforeEnter := none },
            { rid := 3, components := [("default",
                { hasInstance := false, leaveGuards := [], updateGuards := [],
                  enterGuards := [30] })], beforeEnter := some 40 }] }
        (fun k => k < 2)).trace = [.leave 20, .beforeEachHook 50] := by
  have h := c2_cancelled_at_boundary
    { beforeHooks := [50], resolveHooks := [60], afterHooks := [70] }
    { oid := 1, name := none, path := "/a/b", hash := "", query := [],
      params := [],
      matched := [
        { rid := 1, components := [("default",
            { hasInstance := true, leaveGuards := [], updateGuards := [10],
              enterGuards := [] })], beforeEnter := none },
        { rid := 2, components := [("default",
            { hasInstance := true, leaveGuards := [20], updateGuards := [],
              enterGuards := [] })], beforeEnter := none }] }
    { oid := 2, name := none, path := "/a/c", hash := "", query := [],
      params := [],
      matched := [
        { rid := 1, components := [("default",
            { hasInstance := true, leaveGuards := [], updateGuards := [10],
              enterGuards := [] })], beforeEnter := none },
        { rid := 3, components := [("default",
            { hasInstance := false, leaveGuards := [], updateGuards := [],
              enterGuards := [30] })], beforeEnter := some 40 }] }
    (fun k => k < 2) 2 (by decide) (by decide) (by decide) (by decide)
  refine ⟨h.1, ?_⟩
  rw [h.2.1]
  decide

/-- C8 witness: with one registered callback of each kind, an abort with a
plain error (previous route not `START`) followed by a commit fires exactly
the ready-error batch. -/
theorem c8_ready_callbacks_once_witness :
    (runNavEnds { ready := false, readyCbs := [1], readyErrorCbs := [2] }
        [.abort (some .plain) false, .commit]).2 =
      [.readyErrorFired [2]] := by
  have h := (c8_ready_callbacks_once
    { ready := false, readyCbs := [1], readyErrorCbs := [2] }
    [.abort (some .plain) false, .commit] rfl).1
  simpa using h

/-- Erasing the element right after a prefix removes exactly that element. -/
theorem eraseIdx_at_append (front : List String) (m : String) (t : List String) :
    (front ++ m :: t).eraseIdx front.length = front ++ t := by
  induction front with
  | nil => rfl
  | cons a f ih => simp [List.eraseIdx, ih]

/-- The wildcard splice loop is a stable partition: scanning the window
`mid` (after the already-scanned `front`, with `back` the already-pushed
tail) keeps non-wildcards in place and pushes wildcards to the end in
order. -/
theorem spliceLoop_partition :
    ∀ (mid front back : List String),
    spliceLoop (front ++ mid ++ back) front.length mid.length =
      front ++ mid.filter (fun p => p ≠ "*") ++ back ++
        mid.filter (fun p => p = "*") := by
  intro mid
  induction mid with
  | nil => intro front back; simp [spliceLoop]
  | cons m rest ih =>
    intro front back
    have hget : (front ++ (m :: rest) ++ back)[front.length]? = some m := by
      rw [List.append_assoc, List.getElem?_append_right (Nat.le_refl _)]
      simp
    by_cases hm : m = "*"
    · subst hm
      simp only [List.length_cons, spliceLoop, hget, if_true]
      have herase : (front ++ "*" :: rest ++ back).eraseIdx front.length =
          front ++ rest ++ back := by
        rw [List.append_assoc front ("*" :: rest) back, List.cons_append]
        rw [eraseIdx_at_append front "*" (rest ++ back)]
        exact (List.append_assoc front rest back).symm
      rw [herase]
      have harg : (front ++ rest ++ back) ++ ["*"] =
          front ++ rest ++ (back ++ ["*"]) := by
        simp
      rw [harg, ih front (back ++ ["*"])]
      simp
    · simp only [List.length_cons, spliceLoop, hget]
      rw [if_neg hm]
      have := ih (front ++ [m]) back
      have harr : front ++ [m] ++ rest ++ back = front ++ m :: rest ++ back := by
        simp
      rw [harr] at this
      have hlen2 : (front ++ [m]).length = front.length + 1 := by simp
      rw [hlen2] at this
      rw [this]
      simp [hm]

/-- The priority list after compilation is its non-wildcard entries in order
followed by its wildcard entries in order. -/
theorem wildcardReorder_partition (l : List String) :
    wildcardReorder l =
      l.filter (fun p => p ≠ "*") ++ l.filter (fun p => p = "*") := by
  have := spliceLoop_partition l [] []
  simpa [wildcardReorder] using this

/-- C4: `createRouteMap` relocates every `*` entry of the priority list after
every non-wildcard entry, preserving insertion order otherwise; consequently
a table holding both `*` and `/foo` resolves the path `/foo` to the `/foo`
record and never to the wildcard record, in either registration order. -/
theorem c4_wildcard_priority :
    (∀ routes old parent, (createRouteMap routes old parent).pathList =
      wildcardReorder ((routes.foldl
        (fun acc r => addRouteRecord acc r parent none) old).pathList)) ∧
    (∀ l : List String, wildcardReorder l =
      l.filter (fun p => p ≠ "*") ++ l.filter (fun p => p = "*")) ∧
    ((matchF (matcherOf (createRouteMap
          [.mk "*" none [] none none false, .mk "/foo" none [] none none false]
          emptyCompileSt none)) 2 (.strL "/foo") none none).map
        (fun r => r.matched.getLast?) =
      .ok (mapGet (createRouteMap
          [.mk "*" none [] none none false, .mk "/foo" none [] none none false]
          emptyCompileSt none).pathMap "/foo") ∧
      mapGet (createRouteMap
          [.mk "*" none [] none none false, .mk "/foo" none [] none none false]
          emptyCompileSt none).pathMap "/foo" ≠
        mapGet (createRouteMap
          [.mk "*" none [] none none false, .mk "/foo" none [] none none false]
          emptyCompileSt none).pathMap "*") ∧
    ((matchF (matcherOf (createRouteMap
          [.mk "/foo" none [] none none false, .mk "*" none [] none none false]
          emptyCompileSt none)) 2 (.strL "/foo") none none).map
        (fun r => r.matched.getLast?) =
      .ok (mapGet (createRouteMap
          [.mk "/foo" none [] none none false, .mk "*" none [] none none false]
          emptyCompileSt none).pathMap "/foo") ∧
      mapGet (createRouteMap
          [.mk "/foo" none [] none none false, .mk "*" none [] none none false]
          emptyCompileSt none).pathMap "/foo" ≠
        mapGet (createRouteMap
          [.mk "/foo" none [] none none false, .mk "*" none [] none none false]
          emptyCompileSt none).pathMap "*") := by
  have htblA : createRouteMap
      [.mk "*" none [] none none false, .mk "/foo" none [] none none false]
      emptyCompileSt none =
      { pathList := ["/foo", "*"],
        pathMap := [("*", .mk 1 "*" none none none none),
          ("/foo", .mk 2 "/foo" none none none none)],
        nameMap := [], warnings := [], nextRid := 3 } := by
    simp only [createRouteMap, addRouteRecord, addChildren, addAliases, List.foldl]
    rfl
  have htblB : createRouteMap
      [.mk "/foo" none [] none none false, .mk "*" none [] none none false]
      emptyCompileSt none =
      { pathList := ["/foo", "*"],
        pathMap := [("/foo", .mk 1 "/foo" none none none none),
          ("*", .mk 2 "*" none none none none)],
        nameMap := [], warnings := [], nextRid := 3 } := by
    simp only [createRouteMap, addRouteRecord, addChildren, addAliases, List.foldl]
    rfl
  refine ⟨fun _ _ _ => rfl, wildcardReorder_partition, ?_, ?_⟩
  · rw [htblA]
    constructor
    · rfl
    · intro h
      simp [mapGet, List.find?, MRecord.mk.injEq] at h
  · rw [htblB]
    constructor
    · rfl
    · intro h
      simp [mapGet, List.find?, MRecord.mk.injEq] at h

/-- One step of `paramGet` on a cons cell. -/
theorem paramGet_cons (a : String × String) (d : ParamsDict) (k : String) :
    paramGet (a :: d) k = if a.1 = k then some a.2 else paramGet d k := by
  by_cases h : a.1 = k
  · simp [paramGet, List.find?, h]
  · simp [paramGet, List.find?, h]

/-- Looking a key up after mapping the value-overwrite of `paramSet`'s
in-place branch. -/
theorem paramGet_map_setKey (k v : String) :
    ∀ (d : ParamsDict) (k' : String),
      paramGet (d.map fun p => if p.1 = k then (p.1, v) else p) k' =
        if k' = k then (paramGet d k).map (fun _ => v) else paramGet d k' := by
  intro d
  induction d with
  | nil => intro k'; simp [paramGet]
  | cons a d ih =>
    intro k'
    simp only [List.map_cons]
    by_cases ha : a.1 = k
    · rw [if_pos ha, paramGet_cons, paramGet_cons a d k, paramGet_cons a d k']
      by_cases hk : k' = k
      · subst hk
        rw [if_pos ha, if_pos ha, if_pos rfl]
        rfl
      · have hak : ¬a.1 = k' := fun he => hk ((ha ▸ he : k = k')).symm
        rw [if_neg hak, if_neg hk, if_neg hak, ih k', if_neg hk]
    · rw [if_neg ha, paramGet_cons, paramGet_cons a d k, paramGet_cons a d k',
        if_neg ha]
      by_cases hak : a.1 = k'
      · have hk : ¬k' = k := fun he => ha (hak.trans he)
        rw [if_pos hak, if_neg hk, if_pos hak]
      · rw [if_neg hak, if_neg hak, ih k']

/-- `paramGet` distributes over append, the left entry winning. -/
theorem paramGet_append (a b : ParamsDict) (k : String) :
    paramGet (a ++ b) k = ((paramGet a k).map some).getD (paramGet b k) := by
  unfold paramGet
  rw [List.find?_append]
  cases a.find? fun p => p.1 = k <;> simp [Option.orElse]

/-- `paramGet` after `paramSet`: the written key reads back the new value,
every other key is untouched. -/
theorem paramGet_paramSet (d : ParamsDict) (k v k' : String) :
    paramGet (paramSet d k v) k' = if k' = k then some v else paramGet d k' := by
  unfold paramSet
  by_cases hf : (d.find? fun p => p.1 = k).isSome
  · rw [if_pos hf, paramGet_map_setKey]
    by_cases hk : k' = k
    · rw [if_pos hk, if_pos hk]
      cases hx : d.find? fun p => p.1 = k
      · rw [hx] at hf; simp at hf
      · simp [paramGet, hx]
    · rw [if_neg hk, if_neg hk]
  · rw [if_neg hf, paramGet_append]
    have hn : (d.find? fun p => p.1 = k) = none := by
      cases hx : d.find? fun p => p.1 = k
      · rfl
      · rw [hx] at hf; simp at hf
    have hdk : paramGet d k = none := by simp [paramGet, hn]
    by_cases hk : k' = k
    · subst hk
      rw [if_pos rfl, hdk]
      simp [paramGet_cons]
    · have h2 : paramGet [(k, v)] k' = none := by
        rw [paramGet_cons, if_neg (fun he => hk (Eq.symm he))]
        rfl
      rw [if_neg hk, h2]
      cases hx : paramGet d k' <;> simp

/-- A param already present in the location's params survives the
inheritance fold unchanged. -/
theorem inheritParams_preserved (paramNames : List String) (k v : String) :
    ∀ (curParams locParams0 : ParamsDict), paramGet locParams0 k = some v →
      paramGet (inheritParams paramNames curParams locParams0) k = some v := by
  intro curParams
  induction curParams with
  | nil => intro l0 h; simpa [inheritParams] using h
  | cons p rest ih =>
    intro l0 h
    simp only [inheritParams, List.foldl_cons] at ih ⊢
    by_cases hc : ¬(paramGet l0 p.1).isSome ∧ paramNames.contains p.1
    · have hpk : ¬p.1 = k := by
        intro he
        rw [he, h] at hc
        simp at hc
      rw [if_pos hc]
      apply ih
      rw [paramGet_paramSet, if_neg (fun he => hpk (Eq.symm he))]
      exact h
    · rw [if_neg hc]
      exact ih l0 h

/-- A required param present on the current route and absent from the
supplied params is copied by the inheritance fold. -/
theorem inheritParams_inherits (paramNames : List String) (k v : String) :
    ∀ (curParams locParams0 : ParamsDict),
      paramNames.contains k = true →
      paramGet curParams k = some v →
      paramGet locParams0 k = none →
      paramGet (inheritParams paramNames curParams locParams0) k = some v := by
  intro curParams
  induction curParams with
  | nil => intro l0 _ hcv _; simp [paramGet] at hcv
  | cons p rest ih =>
    intro l0 hreq hcv h0
    simp only [inheritParams, List.foldl_cons] at ih ⊢
    by_cases hpk : p.1 = k
    · have hv : p.2 = v := by
        rw [paramGet_cons, if_pos hpk] at hcv
        exact Option.some.inj hcv
      have hc : ¬(paramGet l0 p.1).isSome ∧ paramNames.contains p.1 := by
        rw [hpk, h0]
        exact ⟨by simp, hreq⟩
      rw [if_pos hc]
      have hset : paramGet (paramSet l0 p.1 p.2) k = some v := by
        rw [paramGet_paramSet, if_pos (Eq.symm hpk), hv]
      have := inheritParams_preserved paramNames k v rest (paramSet l0 p.1 p.2) hset
      simpa [inheritParams] using this
    · have hcv' : paramGet rest k = some v := by
        rw [paramGet_cons, if_neg hpk] at hcv
        exact hcv
      by_cases hc : ¬(paramGet l0 p.1).isSome ∧ paramNames.contains p.1
      · rw [if_pos hc]
        apply ih _ hreq hcv'
        rw [paramGet_paramSet, if_neg (fun he => hpk (Eq.symm he))]
        exact h0
      · rw [if_neg hc]
        exact ih l0 hreq hcv' h0

/-- C5: in the matcher's named-location branch, every parameter that is
required by the target record's pattern, present in the current route's
params and absent from the supplied params is copied into the location's
params (and a supplied param is never overwritten) before the record's path
template is filled; concretely, with current route name `user` and params
`id=5`, navigating to `{name: "user"}` with no params resolves to path
`/user/5` carrying params `id=5`. -/
theorem c5_param_inheritance :
    (∀ (paramNames : List String) (curParams locParams0 : ParamsDict) (k v : String),
      paramNames.contains k = true →
      paramGet curParams k = some v →
      paramGet locParams0 k = none →
      paramGet (inheritParams paramNames curParams locParams0) k = some v) ∧
    (∀ (paramNames : List String) (curParams locParams0 : ParamsDict) (k v : String),
      paramGet locParams0 k = some v →
      paramGet (inheritParams paramNames curParams locParams0) k = some v) ∧
    ((matchF (matcherOf (createRouteMap
        [.mk "/user/:id" (some "user") [] none none false] emptyCompileSt none))
        2 (.objL { LocIn.empty with lname := some "user" })
        (some ⟨some "user", "/user/5", "", [], [("id", "5")], "/user/5", [], none⟩)
        none).map (fun r => (r.path, r.params)) = .ok ("/user/5", [("id", "5")])) := by
  have htblU : createRouteMap
      [.mk "/user/:id" (some "user") [] none none false] emptyCompileSt none =
      { pathList := ["/user/:id"],
        pathMap := [("/user/:id", .mk 1 "/user/:id" (some "user") none none none)],
        nameMap := [("user", .mk 1 "/user/:id" (some "user") none none none)],
        warnings := [], nextRid := 2 } := by
    simp only [createRouteMap, addRouteRecord, addChildren, addAliases, List.foldl]
    rfl
  refine ⟨?_, ?_, ?_⟩
  · intro paramNames curParams locParams0 k v hreq hcv h0
    exact inheritParams_inherits paramNames k v curParams locParams0 hreq hcv h0
  · intro paramNames curParams locParams0 k v h
    exact inheritParams_preserved paramNames k v curParams locParams0 h
  · rw [htblU]
    rfl

/-- The parent-chain walk always ends at the record itself. -/
theorem formatChain_getLast (m : MRecord) : (formatChain m).getLast? = some m := by
  cases m with
  | mk rid path rname parent matchAs redirect =>
    rw [formatChain.eq_def]
    exact List.getLast?_concat _

/-- A successful map lookup returns one of the map's records. -/
theorem mapGet_mem (m : List (String × MRecord)) (k : String) (r : MRecord)
    (h : mapGet m k = some r) : r ∈ m.map Prod.snd := by
  unfold mapGet at h
  cases hf : m.find? fun p => p.1 = k with
  | none => rw [hf] at h; simp at h
  | some p =>
    rw [hf] at h
    exact (Option.some.inj h) ▸
      List.mem_map_of_mem Prod.snd (List.mem_of_find?_eq_some hf)

/-- The ordered path scan only ever returns records of the path map. -/
theorem scanPaths_mem (pm : List (String × MRecord)) (p : String) :
    ∀ (l : List String) (rp : MRecord × ParamsDict),
      scanPaths pm p l = some rp → rp.1 ∈ pm.map Prod.snd := by
  intro l
  induction l with
  | nil =>
    intro rp h
    rw [scanPaths] at h
    exact Option.noConfusion h
  | cons ph t ih =>
    intro rp h
    simp only [scanPaths] at h
    cases hg : mapGet pm ph with
    | none =>
      rw [hg] at h
      simp only [] at h
      exact ih rp h
    | some record =>
      rw [hg] at h
      simp only [] at h
      cases hm : matchRoute (compilePath record.path) p [] with
      | some params =>
        rw [hm] at h
        simp only [Option.some.injEq] at h
        rw [← h]
        exact mapGet_mem pm ph record hg
      | none =>
        rw [hm] at h
        simp only [] at h
        exact ih rp h

/-- Over a table none of whose records carries a throwing redirect, a
map-sourced call never produces the `thrown` error, and a returned route's
matched leaf is again a map record. -/
theorem matchCore_result (tbl : MatcherT)
    (H : ∀ r, r ∈ mapRecords tbl → r.redirect ≠ some RedirectVal.rthrow) :
    ∀ fuel call, goodCall tbl call →
      matchCore tbl fuel call ≠ .error .thrown ∧
      (∀ route r, matchCore tbl fuel call = .ok route →
        route.matched.getLast? = some r → r ∈ mapRecords tbl) := by
  intro fuel
  induction fuel with
  | zero =>
    intro call _
    refine ⟨?_, ?_⟩
    · intro h
      simp [matchCore] at h
    · intro route r h
      simp [matchCore] at h
  | succ fuel ih =>
    intro call hg
    cases call with
    | callMatch raw cur rf =>
      simp only [matchCore]
      by_cases hn : optTruthy (normalizeLocation raw cur false).lname = true
      · rw [if_pos hn]
        cases hrec : mapGet tbl.nameMap
            ((normalizeLocation raw cur false).lname.getD "") with
        | none =>
          refine ⟨fun h => Except.noConfusion h, ?_⟩
          intro route r hok hlast
          rw [← Except.ok.inj hok] at hlast
          simp [createRouteR, formatMatch] at hlast
        | some record =>
          apply ih
          intro r hr
          rw [← Option.some.inj hr]
          exact List.mem_append_right _
            (mapGet_mem tbl.nameMap _ record hrec)
      · rw [if_neg hn]
        by_cases hp : optTruthy (normalizeLocation raw cur false).path = true
        · rw [if_pos hp]
          cases hscan : scanPaths tbl.pathMap
              ((normalizeLocation raw cur false).path.getD "") tbl.pathList with
          | none =>
            refine ⟨fun h => Except.noConfusion h, ?_⟩
            intro route r hok hlast
            rw [← Except.ok.inj hok] at hlast
            simp [createRouteR, formatMatch] at hlast
          | some rp =>
            apply ih
            intro r hr
            rw [← Option.some.inj hr]
            exact List.mem_append_left _ (scanPaths_mem tbl.pathMap _ tbl.pathList rp hscan)
        · rw [if_neg hp]
          refine ⟨fun h => Except.noConfusion h, ?_⟩
          intro route r hok hlast
          rw [← Except.ok.inj hok] at hlast
          simp [createRouteR, formatMatch] at hlast
    | callCreate rec loc rf =>
      cases rec with
      | none =>
        simp only [matchCore]
        refine ⟨fun h => Except.noConfusion h, ?_⟩
        intro route r hok hlast
        rw [← Except.ok.inj hok] at hlast
        simp [createRouteR, formatMatch] at hlast
      | some r0 =>
        have hrmem : r0 ∈ mapRecords tbl := hg r0 rfl
        simp only [matchCore]
        cases hred : r0.redirect with
        | some rv =>
          apply ih
          intro he
          exact H r0 hrmem (by rw [hred, he])
        | none =>
          cases hma : r0.matchAs with
          | some ma => exact ih _ trivial
          | none =>
            refine ⟨fun h => Except.noConfusion h, ?_⟩
            intro route r hok hlast
            rw [← Except.ok.inj hok] at hlast
            simp only [createRouteR, formatMatch] at hlast
            rw [formatChain_getLast] at hlast
            rw [← Option.some.inj hlast]
            exact hrmem
    | callRedirect record rv loc =>
      cases rv with
      | rthrow => exact absurd rfl hg
      | rstr s =>
        simp only [matchCore]
        exact ih _ trivial
    | callAlias loc ma =>
      simp only [matchCore]
      have h1 := ih (MatchCall.callMatch (RawLoc.objL { LocIn.empty with isNormalized := true, path := some (fillParams ma (loc.params.getD [])) }) none none) trivial
      cases hres : matchCore tbl fuel (MatchCall.callMatch (RawLoc.objL { LocIn.empty with isNormalized := true, path := some (fillParams ma (loc.params.getD [])) }) none none) with
      | error e =>
        refine ⟨?_, ?_⟩
        · intro h
          simp only [Except.bind] at h
          rw [hres] at h1
          exact h1.1 h
        · intro route r hok
          simp only [Except.bind] at hok
          exact absurd hok (fun h => Except.noConfusion h)
      | ok aliasedMatch =>
        simp only [Except.bind]
        apply ih
        intro r hr
        exact h1.2 aliasedMatch r hres hr

/-- C6: the matcher's `match` never throws on a failed lookup — when the
name lookup misses (for a named location) and the path scan misses (for a
path location), the result is the route built from the null record, whose
matched chain is empty; and over a table none of whose records carries a
throwing redirect target, `match` never raises the user-thrown error at
all (the fuel-exhaustion error is an artifact of bounding the source's
unbounded redirect/alias recursion). -/
theorem c6_no_match_total :
    (∀ (tbl : MatcherT) (fuel : Nat) (raw : RawLoc) (cur : Option RouteR)
        (rf : Option LocIn),
      (optTruthy (normalizeLocation raw cur false).lname = true →
        mapGet tbl.nameMap ((normalizeLocation raw cur false).lname.getD "") = none) →
      (optTruthy (normalizeLocation raw cur false).lname = false →
        scanPaths tbl.pathMap ((normalizeLocation raw cur false).path.getD "")
          tbl.pathList = none) →
      (matchF tbl (fuel + 1) raw cur rf).map (fun r => r.matched) = .ok []) ∧
    (∀ tbl : MatcherT,
      (∀ r, r ∈ mapRecords tbl → r.redirect ≠ some RedirectVal.rthrow) →
      ∀ (fuel : Nat) (raw : RawLoc) (cur : Option RouteR) (rf : Option LocIn),
        matchF tbl fuel raw cur rf ≠ .error .thrown) := by
  constructor
  · intro tbl fuel raw cur rf h1 h2
    unfold matchF
    simp only [matchCore]
    cases hb : optTruthy (normalizeLocation raw cur false).lname with
    | true =>
      rw [if_pos rfl, h1 hb]
      rfl
    | false =>
      rw [if_neg Bool.false_ne_true]
      by_cases hp : optTruthy (normalizeLocation raw cur false).path = true
      · rw [if_pos hp, h2 hb]
        rfl
      · rw [if_neg hp]
        rfl
  · intro tbl H fuel raw cur rf
    exact (matchCore_result tbl H fuel
      (.callMatch raw cur rf) trivial).1

/-- C6 witness: on the empty table the path `/nope` yields the null-record
route with an empty matched chain, and matching never throws. -/
theorem c6_no_match_total_witness :
    (matchF (matcherOf (createRouteMap [] emptyCompileSt none)) 1 (.strL "/nope")
      none none).map (fun r => r.matched) = .ok [] ∧
    matchF (matcherOf (createRouteMap [] emptyCompileSt none)) 5 (.strL "/nope")
      none none ≠ .error .thrown :=
  ⟨c6_no_match_total.1 (matcherOf (createRouteMap [] emptyCompileSt none)) 0
      (.strL "/nope") none none (fun _ => rfl)
      (fun _ => rfl),
    c6_no_match_total.2 (matcherOf (createRouteMap [] emptyCompileSt none))
      (fun r hr => by simp [mapRecords, matcherOf, createRouteMap, emptyCompileSt,
        wildcardReorder, spliceLoop, List.foldl] at hr)
      5 (.strL "/nope") none none⟩

/-- C5 witness: the inheritance fold at concrete inputs — `id=5` is
inherited from the current route, and a supplied `id=5` is kept even when
the current route says `id=9`. -/
theorem c5_param_inheritance_witness :
    paramGet (inheritParams ["id"] [("id", "5")] []) "id" = some "5" ∧
    paramGet (inheritParams ["id"] [("id", "9")] [("id", "5")]) "id" = some "5" :=
  ⟨c5_param_inheritance.1 ["id"] [("id", "5")] [] "id" "5" (by decide) (by decide)
      (by decide),
    c5_param_inheritance.2.1 ["id"] [("id", "9")] [("id", "5")] "id" "5" (by decide)⟩

/-- C9: in the alias loop of `addRouteRecord`, an alias equal to the
definition's own path only appends the alias-equals-path warning — the
compilation state is otherwise passed through untouched, so no shadow record
is registered for it — while an alias different from the path compiles a
shadow definition (the alias as path, the original children, nothing else)
with `matchAs` set to the original record's normalized path; concretely,
`/a` with aliases `/a` and `/b` warns once, registers only the `/b` shadow
(with `matchAs = /a`), and an empty-path route's alias gets `matchAs = /`. -/
theorem c9_alias_handling :
    (∀ (st : CompileSt) (a : String) (rest : List String) (cfgPath : String)
        (children : List RouteConfig) (parent : Option MRecord) (recPath : String),
      a = cfgPath →
      addAliases st (a :: rest) cfgPath children parent recPath =
        addAliases { st with warnings := st.warnings ++ [CompileWarn.aliasEqPath cfgPath] }
          rest cfgPath children parent recPath) ∧
    (∀ (st : CompileSt) (a : String) (rest : List String) (cfgPath : String)
        (children : List RouteConfig) (parent : Option MRecord) (recPath : String),
      ¬a = cfgPath →
      addAliases st (a :: rest) cfgPath children parent recPath =
        addAliases (addRouteRecord st (.mk a none children none none false) parent
          (some recPath)) rest cfgPath children parent recPath) ∧
    (createRouteMap [.mk "/a" none [] (some ["/a", "/b"]) none false]
        emptyCompileSt none =
      { pathList := ["/a", "/b"],
        pathMap := [("/a", .mk 1 "/a" none none none none),
          ("/b", .mk 2 "/b" none none (some "/a") none)],
        nameMap := [], warnings := [.aliasEqPath "/a"], nextRid := 3 }) ∧
    (createRouteMap [.mk "" none [] (some ["/alias"]) none false]
        emptyCompileSt none =
      { pathList := ["", "/alias"],
        pathMap := [("", .mk 1 "" none none none none),
          ("/alias", .mk 2 "/alias" none none (some "/") none)],
        nameMap := [], warnings := [], nextRid := 3 }) := by
  refine ⟨?_, ?_, ?_, ?_⟩
  · intro st a rest cfgPath children parent recPath h
    subst h
    simp only [addAliases, if_true]
  · intro st a rest cfgPath children parent recPath h
    simp only [addAliases]
    rw [if_neg h]
  · simp only [createRouteMap, addRouteRecord, addChildren, addAliases, List.foldl]
    rfl
  · simp only [createRouteMap, addRouteRecord, addChildren, addAliases, List.foldl]
    rfl

/-- C9 witness: the skip step at alias `/a` of path `/a`, and the shadow
step at alias `/b` of path `/a`. -/
theorem c9_alias_handling_witness :
    (addAliases emptyCompileSt ["/a"] "/a" [] none "/a" =
      addAliases { emptyCompileSt with warnings := emptyCompileSt.warnings ++ [CompileWarn.aliasEqPath "/a"] } [] "/a" [] none "/a") ∧
    (addAliases emptyCompileSt ["/b"] "/a" [] none "/a" =
      addAliases (addRouteRecord emptyCompileSt (.mk "/b" none [] none none false) none (some "/a")) [] "/a" [] none "/a") :=
  ⟨c9_alias_handling.1 emptyCompileSt "/a" [] "/a" [] none "/a" rfl,
    c9_alias_handling.2.1 emptyCompileSt "/b" [] "/a" [] none "/a" (by decide)⟩

end VueRouter
